import Mathlib

/-!
# Mining game: account repository and economy engine

A shallow embedding of `database/database.go`, `shop/shop.go` and the request
handlers of `game.go`, followed by the properties proved about them.

Modelling conventions.

* Go `string` is Lean `String` (valid UTF-8 text, which `encoding/json`
  round-trips unchanged); a slice is a `List`.
* Go `int` is the 64-bit two's-complement integer: a value is an `Int` and
  the result of `+`, `-`, `*` on balances, prices and yields is brought back
  into `[-2^63, 2^63)` by `wrapInt`.  Index arithmetic on `itemIndex` is done
  only after the test `itemIndex >= 1` and on list lengths, where it is exact.
* The bbolt file is a `DB`: the bucket `users` is absent or is the list of its
  key/value pairs in ascending key order, the order in which `Bucket.ForEach`
  visits them.  A stored value is the `User` whose `json.Marshal` image the
  bucket holds, so `json.Unmarshal` of a stored value is that `User`.
* `db.Update` commits when its function returns `nil` and rolls back when it
  returns an error; a `db.View` opened inside `db.Update` reads the committed
  state, which is the state the update started from.
* `Bucket.Put` fails on a blank key and on a key above `MaxKeySize` bytes
  (bbolt's `ErrKeyRequired`, `ErrKeyTooLarge`); its 2 GiB value limit is not
  modelled.
* `rand.Intn(n)` panics for `n <= 0` and otherwise returns a value of `[0, n)`;
  the entropy behind a draw is a natural number `seed`.  The comparison
  `rand.Float32() < GetDiamondChance()` is represented by its boolean outcome.
* A handler returns an `Outcome` naming the `return` statement it left through
  (or `panic`), together with the store it leaves behind.
-/

namespace MiningGame

/-! ## database.go: data model -/

structure Pickaxe where
  Id : String
  Name : String
  Price : Int
  MinGold : Int
  MaxGold : Int
deriving DecidableEq

structure Upgrade where
  Id : String
  Name : String
  Description : String
  Price : Int
deriving DecidableEq

structure Inventory where
  Pickaxe : Pickaxe
deriving DecidableEq

structure User where
  Username : String
  IP : String
  Gold : Int
  Diamond : Int
  Health : Int
  Inventory : Inventory
  Upgrades : List Upgrade
deriving DecidableEq

/-- The zero value of `Pickaxe`. -/
def Pickaxe.zero : Pickaxe := ⟨"", "", 0, 0, 0⟩

/-- The zero value of `User`, what `var value User` declares. -/
def User.zero : User := ⟨"", "", 0, 0, 0, ⟨Pickaxe.zero⟩, []⟩

def User.Exists (u : User) : Bool := u.Username != ""

def User.IsLoggedIn (u : User) : Bool := u.IP != ""

def User.HasPickaxe (u : User) (pickaxe : Pickaxe) : Bool :=
  u.Inventory.Pickaxe.Id == pickaxe.Id

def User.HasUpgrade (u : User) (upgrade : Upgrade) : Bool :=
  u.Upgrades.any (fun x => x.Id == upgrade.Id)

def User.HasUpgradeId (u : User) (upgradeId : String) : Bool :=
  u.Upgrades.any (fun x => x.Id == upgradeId)

def User.GetGoldMultiplier (u : User) : Int :=
  if u.HasUpgradeId "gold_multiplier_3" then 3
  else if u.HasUpgradeId "gold_multiplier_2" then 2
  else 1

def User.GetDiamondMultiplier (u : User) : Int :=
  if u.HasUpgradeId "diamond_multiplier_2" then 2 else 1

/-- The value a 64-bit `int` holds after an operation whose exact result is
`x`: `x` modulo `2^64`, in `[-2^63, 2^63)`. -/
def wrapInt (x : Int) : Int :=
  (x + 9223372036854775808) % 18446744073709551616 - 9223372036854775808

/-- The exact result `x` is a value of a 64-bit `int`. -/
def Fits (x : Int) : Prop := -9223372036854775808 ≤ x ∧ x ≤ 9223372036854775807

instance (x : Int) : Decidable (Fits x) := by
  unfold Fits; infer_instance

/-! ## The bbolt bucket -/

/-- Lexicographic order on code sequences. -/
def lexLess : List Nat → List Nat → Bool
  | _, [] => false
  | [], _ :: _ => true
  | a :: as, b :: bs => decide (a < b) || (decide (a = b) && lexLess as bs)

/-- The code points of a key.  bbolt orders keys by `bytes.Compare` on their
UTF-8 bytes, and UTF-8 keeps the order of the code points. -/
def keyCodes (k : String) : List Nat := k.toList.map Char.toNat

/-- Strict key order of the bucket: `bytes.Compare(a, b) < 0`. -/
def keyLess (a b : String) : Bool := lexLess (keyCodes a) (keyCodes b)

/-- The content of a bucket, in ascending key order. -/
abbrev Bucket := List (String × User)

/-- The database file: the bucket `users`, when it has been created. -/
structure DB where
  users : Option Bucket
deriving DecidableEq

/-- A freshly opened file, before any bucket exists. -/
def DB.empty : DB := ⟨none⟩

/-- bbolt's `MaxKeySize`. -/
def MaxKeySize : Nat := 32768

inductive BoltError where
  | ErrKeyRequired
  | ErrKeyTooLarge
deriving DecidableEq

/-- `Bucket.Get`: the value stored under `key`, `none` for Go's `nil`. -/
def Bucket.Get (key : String) : Bucket → Option User
  | [] => none
  | (k, v) :: rest => if key = k then some v else Bucket.Get key rest

/-- Insertion of a pair at its place in key order, replacing the value of a
key already present. -/
def Bucket.insert (key : String) (value : User) : Bucket → Bucket
  | [] => [(key, value)]
  | (k, v) :: rest =>
    if key = k then (key, value) :: rest
    else if keyLess key k then (key, value) :: (k, v) :: rest
    else (k, v) :: Bucket.insert key value rest

/-- `Bucket.Put`. -/
def Bucket.Put (key : String) (value : User) (b : Bucket) : Except BoltError Bucket :=
  if key = "" then Except.error BoltError.ErrKeyRequired
  else if key.utf8ByteSize > MaxKeySize then Except.error BoltError.ErrKeyTooLarge
  else Except.ok (Bucket.insert key value b)

/-- `Bucket.ForEach` with a callback that never fails: a left-to-right pass
over the pairs, threading the variables the callback assigns. -/
def Bucket.ForEach {σ : Type} (b : Bucket) (init : σ) (fn : σ → String → User → σ) : σ :=
  b.foldl (fun acc kv => fn acc kv.1 kv.2) init

/-! ## database.go: repository operations -/

def GetUserData (user : String) (db : DB) : User :=
  match db.users with
  | none => User.zero
  | some b =>
    match b.Get user with
    | none => User.zero
    | some data => data

def GetUserDataByIP (ip : String) (db : DB) : User :=
  match db.users with
  | none => User.zero
  | some b => b.ForEach User.zero (fun value _ user => if user.IP = ip then user else value)

/-- The pickaxe `Login` gives to a new account. -/
def starterPickaxe : Pickaxe :=
  { Id := "", Name := "Rusty Pickaxe", Price := 0, MinGold := 1, MaxGold := 5 }

def Login (user ip : String) (db : DB) : DB :=
  -- tx.CreateBucketIfNotExists
  let b := db.users.getD []
  let userData := GetUserData user db
  if userData.Username = "" then
    let userData := { userData with
      Username := user, IP := ip, Inventory := { Pickaxe := starterPickaxe } }
    match b.Put user userData with
    | Except.error _ => db
    | Except.ok b => { users := some b }
  else
    let userData := { userData with IP := ip }
    match b.Put user userData with
    | Except.error _ => db
    | Except.ok b => { users := some b }

def LogOutUser (user : String) (db : DB) : DB :=
  match db.users with
  | none => db
  | some b =>
    let userData := GetUserData user db
    let userData := { userData with IP := "" }
    match b.Put user userData with
    | Except.error _ => db
    | Except.ok b => { users := some b }

def Mine (userData : User) (gold diamond : Int) (db : DB) : DB :=
  match db.users with
  | none => db
  | some b =>
    let userData := { userData with
      Gold := wrapInt (userData.Gold + gold), Diamond := wrapInt (userData.Diamond + diamond) }
    match b.Put userData.Username userData with
    | Except.error _ => db
    | Except.ok b => { users := some b }

def SaveUserData (userData : User) (db : DB) : DB :=
  match db.users with
  | none => db
  | some b =>
    match b.Put userData.Username userData with
    | Except.error _ => db
    | Except.ok b => { users := some b }

/-! ## shop.go: the catalog -/

/-- The parsed `shop.json`.  A Go map is given by its entries in the order in
which this run of `Init` ranges over it. -/
structure ShopItems where
  Pickaxes : List (String × Pickaxe)
  Upgrades : List (String × Upgrade)

/-- The package variables `cachedSortedPickaxes` and `cachedSortedUpgrades`. -/
structure Catalog where
  cachedSortedPickaxes : List Pickaxe
  cachedSortedUpgrades : List Upgrade

/-- `Init`.  `sort.Sort` with `Less(i, j) = a[i].Price < a[j].Price` is taken
as insertion sort on the price; Go leaves the order of equal prices open. -/
def Init (cachedShopItems : ShopItems) : Catalog :=
  let pickaxeSlice := cachedShopItems.Pickaxes.map Prod.snd
  let upgradeSlice := cachedShopItems.Upgrades.map Prod.snd
  { cachedSortedPickaxes := pickaxeSlice.insertionSort (fun a b => a.Price ≤ b.Price)
    cachedSortedUpgrades := upgradeSlice.insertionSort (fun a b => a.Price ≤ b.Price) }

/-- Go's `xs[i]`: `none` stands for the index-out-of-range panic. -/
def index? {α : Type} (xs : List α) (i : Int) : Option α :=
  if i < 0 then none else xs[i.toNat]?

/-- The `return` statement a handler leaves through. -/
inductive Outcome where
  | notLoggedIn
  | invalidItem
  | notEnoughGold
  | notEnoughDiamonds
  | bought (name : String)
  | mined (gold diamonds : Int)
  | noUsername
  | loggedIn (username : String)
  | loggedOut
  | redirectHome
  | panic
deriving DecidableEq

def handleUpgradePurchase (cat : Catalog) (userData : User) (itemIndex : Int) (db : DB) :
    Outcome × DB :=
  match index? cat.cachedSortedUpgrades (itemIndex - 1 - cat.cachedSortedPickaxes.length) with
  | none => (Outcome.panic, db)
  | some upgrade =>
    if userData.Diamond < upgrade.Price then (Outcome.notEnoughDiamonds, db)
    else
      let userData := { userData with
        Diamond := wrapInt (userData.Diamond - upgrade.Price)
        Upgrades := userData.Upgrades ++ [upgrade] }
      (Outcome.bought upgrade.Name, SaveUserData userData db)

/-- `ShopItem`, for the request of address `ip`; `itemIndex` is the value
`fmt.Sscanf` leaves in the variable of that name (0 when nothing parses). -/
def ShopItem (cat : Catalog) (ip : String) (itemIndex : Int) (db : DB) : Outcome × DB :=
  let userData := GetUserDataByIP ip db
  if !userData.Exists then (Outcome.notLoggedIn, db)
  else if itemIndex < 1 ∨ itemIndex > cat.cachedSortedPickaxes.length then
    if itemIndex < 1 ∨
        itemIndex > cat.cachedSortedPickaxes.length + cat.cachedSortedUpgrades.length then
      (Outcome.invalidItem, db)
    else handleUpgradePurchase cat userData itemIndex db
  else
    match index? cat.cachedSortedPickaxes (itemIndex - 1) with
    | none => (Outcome.panic, db)
    | some pickaxe =>
      if userData.Gold < pickaxe.Price then (Outcome.notEnoughGold, db)
      else
        let userData := { userData with
          Gold := wrapInt (userData.Gold - pickaxe.Price)
          Inventory := { Pickaxe := pickaxe } }
        (Outcome.bought pickaxe.Name, SaveUserData userData db)

/-! ## game.go: request handlers -/

/-- `rand.Intn(n)`: `none` is its panic for `n <= 0`; otherwise the draw that
the entropy `seed` selects in `[0, n)`. -/
def randIntn (seed : Nat) (n : Int) : Option Int :=
  if n ≤ 0 then none else some ((seed : Int) % n)

/-- `mine`, for the request of address `ip`.  `seed` feeds `rand.Intn` and
`foundDiamond` is the outcome of `rand.Float32() < userData.GetDiamondChance()`. -/
def mine (ip : String) (seed : Nat) (foundDiamond : Bool) (db : DB) : Outcome × DB :=
  let userData := GetUserDataByIP ip db
  if userData.Username = "" then (Outcome.notLoggedIn, db)
  else
    let minGold := userData.Inventory.Pickaxe.MinGold
    let maxGold := userData.Inventory.Pickaxe.MaxGold
    match randIntn seed (wrapInt (maxGold - minGold)) with
    | none => (Outcome.panic, db)
    | some draw =>
      let minedGold := wrapInt (wrapInt (draw + minGold) * userData.GetGoldMultiplier)
      let minedDiamonds :=
        if foundDiamond then wrapInt (1 * userData.GetDiamondMultiplier) else 0
      (Outcome.mined minedGold minedDiamonds, Mine userData minedGold minedDiamonds db)

def logout (ip : String) (db : DB) : Outcome × DB :=
  let userData := GetUserDataByIP ip db
  if userData.Username = "" then (Outcome.redirectHome, db)
  else (Outcome.loggedOut, LogOutUser userData.Username db)

def login (username ip : String) (db : DB) : Outcome × DB :=
  if username = "" then (Outcome.noUsername, db)
  else (Outcome.loggedIn username, Login username ip db)

/-- A request that can change the store, with the address it comes from and
the random outcomes it meets. -/
inductive Request where
  | login (username ip : String)
  | logout (ip : String)
  | mine (ip : String) (seed : Nat) (foundDiamond : Bool)
  | shopItem (ip : String) (itemIndex : Int)

/-- The router: one request served on the store `db`. -/
def serve (cat : Catalog) (db : DB) : Request → Outcome × DB
  | Request.login username ip => login username ip db
  | Request.logout ip => logout ip db
  | Request.mine ip seed foundDiamond => mine ip seed foundDiamond db
  | Request.shopItem ip itemIndex => ShopItem cat ip itemIndex db

/-- The store after a sequence of requests served one after the other. -/
def run (cat : Catalog) (db : DB) (reqs : List Request) : DB :=
  reqs.foldl (fun s req => (serve cat s req).2) db

/-! ## Well-formed stores -/

/-- The pairs a store holds, in scan order; none when the bucket is absent. -/
def DB.entries (db : DB) : Bucket := db.users.getD []

/-- Keys are strictly ascending, as bbolt keeps them. -/
def DB.Ordered (db : DB) : Prop :=
  db.entries.Pairwise (fun x y => keyLess x.1 y.1 = true)

/-- Every record is stored under its own name, a key that `Put` accepts. -/
def DB.Keyed (db : DB) : Prop :=
  ∀ kv ∈ db.entries, kv.2.Username = kv.1 ∧ kv.1 ≠ "" ∧ kv.1.utf8ByteSize ≤ MaxKeySize

/-- Balances of every stored record are non-negative. -/
def DB.NonNegative (db : DB) : Prop :=
  ∀ kv ∈ db.entries, 0 ≤ kv.2.Gold ∧ 0 ≤ kv.2.Diamond

instance (db : DB) : Decidable db.Ordered := by
  unfold DB.Ordered; infer_instance

instance (db : DB) : Decidable db.Keyed := by
  unfold DB.Keyed; infer_instance

instance (db : DB) : Decidable db.NonNegative := by
  unfold DB.NonNegative; infer_instance

/-- A name of `MaxKeySize + 1` bytes. -/
def longName : String := String.mk (List.replicate (MaxKeySize + 1) 'a')

/-- A catalog file with three pickaxes and two upgrades. -/
def exampleItems : ShopItems :=
  { Pickaxes :=
      [("iron", ⟨"iron", "Iron Pickaxe", 50, 3, 9⟩),
       ("gold", ⟨"gold", "Gold Pickaxe", 200, 8, 20⟩),
       ("stone", ⟨"stone", "Stone Pickaxe", 10, 2, 6⟩)]
    Upgrades :=
      [("gold_multiplier_3", ⟨"gold_multiplier_3", "Triple Gold", "Three times the gold", 5⟩),
       ("gold_multiplier_2", ⟨"gold_multiplier_2", "Double Gold", "Twice the gold", 2⟩)] }

/-- The record of `alice`: logged in, 10 gold, 2 diamonds, owner of the
upgrade `gold_multiplier_2`. -/
def exampleUser : User :=
  { Username := "alice", IP := "10.0.0.1", Gold := 10, Diamond := 2, Health := 0
    Inventory := { Pickaxe := starterPickaxe }
    Upgrades := [⟨"gold_multiplier_2", "Double Gold", "Twice the gold", 2⟩] }

/-- A store holding `exampleUser` and a logged-out `bob`. -/
def exampleDB : DB :=
  SaveUserData exampleUser
    (LogOutUser "bob" (Login "bob" "10.0.0.2" (Login "alice" "10.0.0.1" DB.empty)))

/-- A catalog file whose only pickaxe has an empty yield range. -/
def bluntItems : ShopItems :=
  { Pickaxes := [("blunt", ⟨"blunt", "Blunt Pickaxe", 0, 5, 5⟩)], Upgrades := [] }

/-- A catalog file whose only pickaxe has a negative yield range. -/
def cursedItems : ShopItems :=
  { Pickaxes := [("cursed", ⟨"cursed", "Cursed Pickaxe", 0, -3, -1⟩)], Upgrades := [] }

/-- No catalog pickaxe has a negative lower yield. -/
def Catalog.NonNegativeYield (cat : Catalog) : Prop :=
  ∀ p ∈ cat.cachedSortedPickaxes, 0 ≤ p.MinGold

instance (cat : Catalog) : Decidable cat.NonNegativeYield := by
  unfold Catalog.NonNegativeYield; infer_instance

/-- Non-negative balances and a non-negative lower yield of the equipped
pickaxe. -/
def User.Sound (u : User) : Prop :=
  0 ≤ u.Gold ∧ 0 ≤ u.Diamond ∧ 0 ≤ u.Inventory.Pickaxe.MinGold

/-- Every stored record is sound. -/
def DB.Sound (db : DB) : Prop := ∀ kv ∈ db.entries, kv.2.Sound

/-- A catalog file with a free pickaxe whose only yield is `2^63 - 2` and a
pickaxe of price -2. -/
def richItems : ShopItems :=
  { Pickaxes :=
      [("rich", ⟨"rich", "Rich Pickaxe", 0, 9223372036854775806, 9223372036854775807⟩),
       ("gift", ⟨"gift", "Gift Pickaxe", -2, 1, 5⟩)]
    Upgrades := [] }

/-- The store after `alice` logs in, buys the rich pickaxe (index 2) and mines
once: she holds `2^63 - 2` gold. -/
def richDB : DB :=
  run (Init richItems) DB.empty
    [Request.login "alice" "10.0.0.1", Request.shopItem "10.0.0.1" 2,
     Request.mine "10.0.0.1" 0 false]

/-- A catalog file whose only item is an upgrade of price -4000000000000000000. -/
def grantItems : ShopItems :=
  { Pickaxes := []
    Upgrades := [("grant", ⟨"grant", "Grant", "Pays its buyer", -4000000000000000000⟩)] }

/-- The store after `alice` logs in and buys the upgrade of `grantItems` twice:
she holds 8000000000000000000 diamonds. -/
def grantDB : DB :=
  run (Init grantItems) DB.empty
    [Request.login "alice" "10.0.0.1", Request.shopItem "10.0.0.1" 1,
     Request.shopItem "10.0.0.1" 1]

/-- A catalog file whose only pickaxe has the range -5000000000000000000 ..
5000000000000000000, wider than `2^63`. -/
def wideItems : ShopItems :=
  { Pickaxes :=
      [("wide", ⟨"wide", "Wide Pickaxe", 0, -5000000000000000000, 5000000000000000000⟩)]
    Upgrades := [] }

/-- The store after `alice` logs in and buys the pickaxe of `wideItems`. -/
def wideDB : DB :=
  run (Init wideItems) DB.empty
    [Request.login "alice" "10.0.0.1", Request.shopItem "10.0.0.1" 1]

/-- A catalog file with a free pickaxe whose only yield is 4000000000000000000
and the free upgrade `gold_multiplier_3`. -/
def steepItems : ShopItems :=
  { Pickaxes :=
      [("steep", ⟨"steep", "Steep Pickaxe", 0, 4000000000000000000, 4000000000000000001⟩)]
    Upgrades :=
      [("gold_multiplier_3", ⟨"gold_multiplier_3", "Triple Gold", "Three times the gold", 0⟩)] }

/-- The store after `alice` logs in and buys both items of `steepItems`. -/
def steepDB : DB :=
  run (Init steepItems) DB.empty
    [Request.login "alice" "10.0.0.1", Request.shopItem "10.0.0.1" 1,
     Request.shopItem "10.0.0.1" 2]

/-- A catalog file with a free pickaxe whose only yield is -4000000000000000000
and the free upgrade `gold_multiplier_3`. -/
def deepItems : ShopItems :=
  { Pickaxes :=
      [("deep", ⟨"deep", "Deep Pickaxe", 0, -4000000000000000000, -3999999999999999999⟩)]
    Upgrades :=
      [("gold_multiplier_3", ⟨"gold_multiplier_3", "Triple Gold", "Three times the gold", 0⟩)] }

/-- The store after `alice` logs in and buys both items of `deepItems`. -/
def deepDB : DB :=
  run (Init deepItems) DB.empty
    [Request.login "alice" "10.0.0.1", Request.shopItem "10.0.0.1" 1,
     Request.shopItem "10.0.0.1" 2]

/-- A catalog file whose only pickaxe has `MinGold = 2^63 - 1` and
`MaxGold = -2^63 + 5`: the 64-bit difference `MaxGold - MinGold` is 6. -/
def oddItems : ShopItems :=
  { Pickaxes :=
      [("odd", ⟨"odd", "Odd Pickaxe", 0, 9223372036854775807, -9223372036854775803⟩)]
    Upgrades := [] }

/-- The integer results the handler stores for the request on `db` are exact,
inside the 64-bit range: for `mine` the drawn yield, its product with the
multiplier and the two new balances; for a purchase that is made, the balance
less the price. -/
def Request.Exact (cat : Catalog) (db : DB) : Request → Prop
  | Request.login _ _ => True
  | Request.logout _ => True
  | Request.mine ip seed foundDiamond =>
    (GetUserDataByIP ip db).Username ≠ "" →
      ∀ draw ∈ randIntn seed (wrapInt ((GetUserDataByIP ip db).Inventory.Pickaxe.MaxGold -
          (GetUserDataByIP ip db).Inventory.Pickaxe.MinGold)),
        Fits (draw + (GetUserDataByIP ip db).Inventory.Pickaxe.MinGold) ∧
        Fits ((draw + (GetUserDataByIP ip db).Inventory.Pickaxe.MinGold) *
          (GetUserDataByIP ip db).GetGoldMultiplier) ∧
        Fits ((GetUserDataByIP ip db).Gold +
          (draw + (GetUserDataByIP ip db).Inventory.Pickaxe.MinGold) *
            (GetUserDataByIP ip db).GetGoldMultiplier) ∧
        Fits ((GetUserDataByIP ip db).Diamond +
          (if foundDiamond then 1 * (GetUserDataByIP ip db).GetDiamondMultiplier else 0))
  | Request.shopItem ip itemIndex =>
    (GetUserDataByIP ip db).Exists = true →
      (∀ pickaxe ∈ index? cat.cachedSortedPickaxes (itemIndex - 1),
        pickaxe.Price ≤ (GetUserDataByIP ip db).Gold →
          Fits ((GetUserDataByIP ip db).Gold - pickaxe.Price)) ∧
      (∀ upgrade ∈ index? cat.cachedSortedUpgrades
          (itemIndex - 1 - cat.cachedSortedPickaxes.length),
        upgrade.Price ≤ (GetUserDataByIP ip db).Diamond →
          Fits ((GetUserDataByIP ip db).Diamond - upgrade.Price))

/-- Every request of the sequence, served in turn from `db`, is `Exact` on the
store it meets. -/
def RunExact (cat : Catalog) : DB → List Request → Prop
  | _, [] => True
  | db, req :: rest => req.Exact cat db ∧ RunExact cat (serve cat db req).2 rest

instance (cat : Catalog) (db : DB) (req : Request) : Decidable (req.Exact cat db) := by
  cases req <;> (unfold Request.Exact; infer_instance)

instance decRunExact (cat : Catalog) : (db : DB) → (reqs : List Request) →
    Decidable (RunExact cat db reqs)
  | _, [] => isTrue trivial
  | db, req :: rest =>
    have := decRunExact cat (serve cat db req).2 rest
    inferInstanceAs (Decidable (req.Exact cat db ∧ RunExact cat (serve cat db req).2 rest))

/-! ## Lemmas on the key order and the bucket -/

theorem lexLess_trans : ∀ a b c : List Nat,
    lexLess a b = true → lexLess b c = true → lexLess a c = true
  | _, [], _ => by intro h; cases ‹List Nat› <;> simp [lexLess] at h
  | _, _ :: _, [] => by intro _ h; simp [lexLess] at h
  | [], _ :: _, _ :: _ => by intro _ _; simp [lexLess]
  | x :: xs, y :: ys, z :: zs => by
    intro h1 h2
    simp only [lexLess, Bool.or_eq_true, Bool.and_eq_true, decide_eq_true_eq] at h1 h2 ⊢
    rcases h1 with h1 | ⟨h1, h1'⟩
    · rcases h2 with h2 | ⟨h2, _⟩
      · exact Or.inl (by omega)
      · exact Or.inl (by omega)
    · rcases h2 with h2 | ⟨h2, h2'⟩
      · exact Or.inl (by omega)
      · exact Or.inr ⟨by omega, lexLess_trans xs ys zs h1' h2'⟩

theorem lexLess_total : ∀ a b : List Nat,
    lexLess a b = false → a ≠ b → lexLess b a = true
  | [], [] => by intro _ h; exact absurd rfl h
  | [], _ :: _ => by intro h; simp [lexLess] at h
  | _ :: _, [] => by intro _ _; simp [lexLess]
  | x :: xs, y :: ys => by
    intro h hne
    simp only [lexLess, Bool.or_eq_false_iff, Bool.and_eq_false_iff, decide_eq_false_iff_not,
      Bool.or_eq_true, Bool.and_eq_true, decide_eq_true_eq] at h ⊢
    obtain ⟨h1, h2⟩ := h
    by_cases hxy : x = y
    · subst hxy
      refine Or.inr ⟨rfl, lexLess_total xs ys ?_ ?_⟩
      · rcases h2 with h2 | h2
        · exact absurd rfl h2
        · exact h2
      · intro e; exact hne (by rw [e])
    · exact Or.inl (by omega)

theorem keyCodes_injective {a b : String} (h : keyCodes a = keyCodes b) : a = b := by
  have hinj : Function.Injective Char.toNat :=
    Function.LeftInverse.injective Char.ofNat_toNat
  exact String.ext (List.map_injective_iff.mpr hinj h)

theorem keyLess_trans {a b c : String} (h1 : keyLess a b = true) (h2 : keyLess b c = true) :
    keyLess a c = true :=
  lexLess_trans _ _ _ h1 h2

theorem keyLess_total {a b : String} (h : keyLess a b = false) (hne : a ≠ b) :
    keyLess b a = true :=
  lexLess_total _ _ h (fun e => hne (keyCodes_injective e))

theorem Get_insert_self (key : String) (value : User) (b : Bucket) :
    Bucket.Get key (Bucket.insert key value b) = some value := by
  induction b with
  | nil => simp [Bucket.insert, Bucket.Get]
  | cons kv rest ih =>
    obtain ⟨k, v⟩ := kv
    by_cases h1 : key = k
    · simp [Bucket.insert, Bucket.Get, h1]
    · by_cases h2 : keyLess key k = true
      · simp [Bucket.insert, Bucket.Get, h1, h2]
      · simp [Bucket.insert, Bucket.Get, h1, h2, ih]

theorem Get_insert_of_ne {key other : String} (value : User) (b : Bucket) (hne : other ≠ key) :
    Bucket.Get other (Bucket.insert key value b) = Bucket.Get other b := by
  induction b with
  | nil => simp [Bucket.insert, Bucket.Get, hne]
  | cons kv rest ih =>
    obtain ⟨k, v⟩ := kv
    by_cases h1 : key = k
    · subst h1; simp [Bucket.insert, Bucket.Get, hne]
    · by_cases h2 : keyLess key k = true
      · simp [Bucket.insert, Bucket.Get, h1, h2, hne]
      · simp [Bucket.insert, Bucket.Get, h1, h2, ih]

theorem mem_insert {key : String} {value : User} {b : Bucket} {kv : String × User}
    (h : kv ∈ Bucket.insert key value b) : kv = (key, value) ∨ kv ∈ b := by
  induction b with
  | nil => simpa [Bucket.insert] using h
  | cons x rest ih =>
    obtain ⟨k, v⟩ := x
    by_cases h1 : key = k
    · simp only [Bucket.insert, h1, if_true, List.mem_cons] at h ⊢
      rcases h with h | h
      · exact Or.inl h
      · exact Or.inr (Or.inr h)
    · by_cases h2 : keyLess key k = true
      · simp only [Bucket.insert, h1, h2, if_true, if_false, List.mem_cons] at h ⊢
        exact h
      · simp only [Bucket.insert, h1, h2, Bool.false_eq_true, if_false, List.mem_cons] at h ⊢
        rcases h with h | h
        · exact Or.inr (Or.inl h)
        · rcases ih h with h | h
          · exact Or.inl h
          · exact Or.inr (Or.inr h)

theorem mem_of_Get {key : String} {value : User} {b : Bucket}
    (h : Bucket.Get key b = some value) : (key, value) ∈ b := by
  induction b with
  | nil => simp [Bucket.Get] at h
  | cons x rest ih =>
    obtain ⟨k, v⟩ := x
    by_cases h1 : key = k
    · subst h1
      simp only [Bucket.Get, if_true, Option.some.injEq] at h
      subst h
      exact List.mem_cons_self _ _
    · simp only [Bucket.Get, h1, if_false] at h
      exact List.mem_cons_of_mem _ (ih h)

theorem insert_pairwise {key : String} {value : User} {b : Bucket}
    (h : b.Pairwise (fun x y => keyLess x.1 y.1 = true)) :
    (Bucket.insert key value b).Pairwise (fun x y => keyLess x.1 y.1 = true) := by
  induction b with
  | nil => simp [Bucket.insert]
  | cons x rest ih =>
    obtain ⟨k, v⟩ := x
    rw [List.pairwise_cons] at h
    obtain ⟨hk, hrest⟩ := h
    by_cases h1 : key = k
    · subst h1
      simp only [Bucket.insert, if_true]
      exact List.pairwise_cons.mpr ⟨hk, hrest⟩
    · by_cases h2 : keyLess key k = true
      · simp only [Bucket.insert, h1, h2, if_true, if_false]
        refine List.pairwise_cons.mpr ⟨?_, List.pairwise_cons.mpr ⟨hk, hrest⟩⟩
        intro y hy
        rcases List.mem_cons.mp hy with hy | hy
        · subst hy; exact h2
        · exact keyLess_trans h2 (hk y hy)
      · simp only [Bucket.insert, h1, h2, Bool.false_eq_true, if_false]
        refine List.pairwise_cons.mpr ⟨?_, ih hrest⟩
        intro y hy
        rcases mem_insert hy with hy | hy
        · subst hy
          exact keyLess_total (by simpa using h2) h1
        · exact hk y hy

theorem utf8ByteSize_go_replicate (n : Nat) :
    String.utf8ByteSize.go (List.replicate n 'a') = n := by
  induction n with
  | zero => rfl
  | succ n ih =>
    rw [List.replicate_succ, String.utf8ByteSize.go, ih]
    rfl

theorem longName_size : longName.utf8ByteSize = MaxKeySize + 1 :=
  utf8ByteSize_go_replicate _

theorem longName_ne_empty : longName ≠ "" := by
  intro h
  have h2 := congrArg String.utf8ByteSize h
  rw [longName_size] at h2
  have h3 : "".utf8ByteSize = 0 := rfl
  rw [h3] at h2
  exact absurd h2 (by decide)

theorem Put_ok {key : String} (value : User) (b : Bucket) (h1 : key ≠ "")
    (h2 : key.utf8ByteSize ≤ MaxKeySize) :
    Bucket.Put key value b = Except.ok (Bucket.insert key value b) := by
  simp [Bucket.Put, h1, Nat.not_lt.mpr h2]

theorem Put_blank (value : User) (b : Bucket) :
    Bucket.Put "" value b = Except.error BoltError.ErrKeyRequired := by
  simp [Bucket.Put]

theorem Put_long (value : User) (b : Bucket) :
    Bucket.Put longName value b = Except.error BoltError.ErrKeyTooLarge := by
  simp [Bucket.Put, longName_ne_empty, longName_size]

theorem Login_refused (u ip : String) (db : DB) (e : BoltError)
    (h : ∀ v b, Bucket.Put u v b = Except.error e) : Login u ip db = db := by
  simp only [Login, h]
  split <;> rfl

theorem SaveUserData_refused (r : User) (db : DB) (e : BoltError)
    (h : ∀ v b, Bucket.Put r.Username v b = Except.error e) : SaveUserData r db = db := by
  unfold SaveUserData
  cases db.users <;> simp [h]

theorem GetUserData_eq (user : String) (db : DB) :
    GetUserData user db = (Bucket.Get user db.entries).getD User.zero := by
  unfold GetUserData DB.entries
  cases db.users with
  | none => simp [Bucket.Get]
  | some b => cases h : Bucket.Get user b <;> simp [h]

/-! ## The claims -/

/-- C1, amended: after `Login(u, a)` with a non-blank name `u` of at most
`MaxKeySize` bytes, `GetUserData(u)` returns: when the store held a record for
`u` whose own name is not blank (the test `Login` makes; every record the
handlers store is such), that record with only its address replaced by `a`;
when it held none, a new record with name `u`, address `a`, zero balances and
health, no upgrades and the starter pickaxe. -/
theorem Login_then_GetUserData (db : DB) (u a : String) (hu : u ≠ "")
    (hlen : u.utf8ByteSize ≤ MaxKeySize) :
    (∀ r, Bucket.Get u db.entries = some r → r.Username ≠ "" →
      GetUserData u (Login u a db) = { r with IP := a }) ∧
    (Bucket.Get u db.entries = none →
      GetUserData u (Login u a db) =
        { Username := u, IP := a, Gold := 0, Diamond := 0, Health := 0,
          Inventory := { Pickaxe :=
            { Id := "", Name := "Rusty Pickaxe", Price := 0, MinGold := 1, MaxGold := 5 } },
          Upgrades := [] }) := by
  constructor
  · intro r hr hne
    have hold : GetUserData u db = r := by rw [GetUserData_eq, hr]; rfl
    have hlogin : Login u a db = ⟨some (Bucket.insert u { r with IP := a } db.entries)⟩ := by
      simp only [Login, hold, hne, if_false, Put_ok _ _ hu hlen]
      rfl
    rw [hlogin, GetUserData_eq]
    simp [DB.entries, Get_insert_self]
  · intro hr
    have hold : GetUserData u db = User.zero := by rw [GetUserData_eq, hr]; rfl
    have hlogin : Login u a db = ⟨some (Bucket.insert u
        { User.zero with Username := u, IP := a, Inventory := { Pickaxe := starterPickaxe } }
        db.entries)⟩ := by
      simp only [Login, hold, User.zero, if_true, Put_ok _ _ hu hlen]
      rfl
    rw [hlogin, GetUserData_eq]
    simp [DB.entries, Get_insert_self, User.zero, starterPickaxe]

/-- Witness of C1: `alice` of the example store logs in from a new address,
and `carol`, not stored, logs in for the first time. -/
theorem Login_then_GetUserData_witness :
    Bucket.Get "alice" exampleDB.entries = some exampleUser ∧
    Bucket.Get "carol" exampleDB.entries = none ∧
    ((∀ r, Bucket.Get "alice" exampleDB.entries = some r → r.Username ≠ "" →
        GetUserData "alice" (Login "alice" "10.0.0.9" exampleDB) = { r with IP := "10.0.0.9" }) ∧
      (Bucket.Get "alice" exampleDB.entries = none →
        GetUserData "alice" (Login "alice" "10.0.0.9" exampleDB) =
          { Username := "alice", IP := "10.0.0.9", Gold := 0, Diamond := 0, Health := 0,
            Inventory := { Pickaxe :=
              { Id := "", Name := "Rusty Pickaxe", Price := 0, MinGold := 1, MaxGold := 5 } },
            Upgrades := [] })) ∧
    GetUserData "carol" (Login "carol" "10.0.0.3" exampleDB) =
      { Username := "carol", IP := "10.0.0.3", Gold := 0, Diamond := 0, Health := 0,
        Inventory := { Pickaxe :=
          { Id := "", Name := "Rusty Pickaxe", Price := 0, MinGold := 1, MaxGold := 5 } },
        Upgrades := [] } :=
  ⟨by decide, by decide,
    Login_then_GetUserData exampleDB "alice" "10.0.0.9" (by decide) (by decide),
    (Login_then_GetUserData exampleDB "carol" "10.0.0.3" (by decide) (by decide)).2
      (by decide)⟩

/-- C1 as stated fails (1) for the blank name and (2) for a name above
`MaxKeySize` bytes: no record is stored for them, `Login` stores none (its
`Put` is refused) and `GetUserData` still returns the zero value, whose
address is not `a`; and (3) for a key that holds a record with a blank name
(what `LogOutUser` leaves for an unknown name): `Login` treats it as absent
and returns it with name and pickaxe replaced as well. -/
theorem Login_refused_key_counterexample :
    (Bucket.Get "" DB.empty.entries = none ∧
      GetUserData "" (Login "" "10.0.0.1" DB.empty) = User.zero ∧
      GetUserData "" (Login "" "10.0.0.1" DB.empty) ≠
        { Username := "", IP := "10.0.0.1", Gold := 0, Diamond := 0, Health := 0,
          Inventory := { Pickaxe :=
            { Id := "", Name := "Rusty Pickaxe", Price := 0, MinGold := 1, MaxGold := 5 } },
          Upgrades := [] }) ∧
    (Bucket.Get longName DB.empty.entries = none ∧
      GetUserData longName (Login longName "10.0.0.1" DB.empty) = User.zero ∧
      GetUserData longName (Login longName "10.0.0.1" DB.empty) ≠
        { Username := longName, IP := "10.0.0.1", Gold := 0, Diamond := 0, Health := 0,
          Inventory := { Pickaxe :=
            { Id := "", Name := "Rusty Pickaxe", Price := 0, MinGold := 1, MaxGold := 5 } },
          Upgrades := [] }) ∧
    (Bucket.Get "bob" (LogOutUser "bob" (Login "alice" "10.0.0.1" DB.empty)).entries =
        some User.zero ∧
      GetUserData "bob"
          (Login "bob" "10.0.0.2" (LogOutUser "bob" (Login "alice" "10.0.0.1" DB.empty))) =
        { Username := "bob", IP := "10.0.0.2", Gold := 0, Diamond := 0, Health := 0,
          Inventory := { Pickaxe :=
            { Id := "", Name := "Rusty Pickaxe", Price := 0, MinGold := 1, MaxGold := 5 } },
          Upgrades := [] } ∧
      GetUserData "bob"
          (Login "bob" "10.0.0.2" (LogOutUser "bob" (Login "alice" "10.0.0.1" DB.empty))) ≠
        { User.zero with IP := "10.0.0.2" }) := by
  have hlong : Login longName "10.0.0.1" DB.empty = DB.empty :=
    Login_refused _ _ _ _ Put_long
  have hzero : GetUserData longName DB.empty = User.zero := by
    simp [GetUserData, DB.empty]
  refine ⟨⟨by decide, by decide, by decide⟩, ⟨?_, ?_, ?_⟩, ⟨by decide, by decide, by decide⟩⟩
  · simp [DB.entries, DB.empty, Bucket.Get]
  · rw [hlong, hzero]
  · rw [hlong, hzero]
    intro h
    have h2 := congrArg User.IP h
    simp [User.zero] at h2

theorem GetUserData_SaveUserData (db : DB) (r : User) (hb : db.users.isSome = true)
    (hu : r.Username ≠ "") (hlen : r.Username.utf8ByteSize ≤ MaxKeySize) :
    GetUserData r.Username (SaveUserData r db) = r := by
  obtain ⟨users⟩ := db
  cases users with
  | none => simp at hb
  | some b =>
    simp only [SaveUserData, Put_ok _ _ hu hlen]
    rw [GetUserData_eq]
    simp [DB.entries, Get_insert_self]

/-- C2, amended: when the bucket `users` exists and the name of `r` is
non-blank and of at most `MaxKeySize` bytes, `SaveUserData(r)` followed by
`GetUserData(r.Username)` returns `r`, equal in every field. -/
theorem SaveUserData_then_GetUserData (db : DB) (r : User) (hb : db.users.isSome = true)
    (hu : r.Username ≠ "") (hlen : r.Username.utf8ByteSize ≤ MaxKeySize) :
    GetUserData r.Username (SaveUserData r db) = r ∧
    (GetUserData r.Username (SaveUserData r db)).Username = r.Username ∧
    (GetUserData r.Username (SaveUserData r db)).IP = r.IP ∧
    (GetUserData r.Username (SaveUserData r db)).Gold = r.Gold ∧
    (GetUserData r.Username (SaveUserData r db)).Diamond = r.Diamond ∧
    (GetUserData r.Username (SaveUserData r db)).Health = r.Health ∧
    (GetUserData r.Username (SaveUserData r db)).Inventory.Pickaxe = r.Inventory.Pickaxe ∧
    (GetUserData r.Username (SaveUserData r db)).Upgrades = r.Upgrades := by
  have h := GetUserData_SaveUserData db r hb hu hlen
  rw [h]
  exact ⟨rfl, rfl, rfl, rfl, rfl, rfl, rfl, rfl⟩

/-- Witness of C2: the record of `alice` saved over the one `Login` created. -/
theorem SaveUserData_then_GetUserData_witness :
    (Login "alice" "10.0.0.1" DB.empty).users.isSome = true ∧
    GetUserData "alice" (SaveUserData exampleUser (Login "alice" "10.0.0.1" DB.empty)) =
      exampleUser :=
  ⟨by decide,
    (SaveUserData_then_GetUserData (Login "alice" "10.0.0.1" DB.empty) exampleUser
      (by decide) (by decide) (by decide)).1⟩

/-- C2 as stated fails when the bucket `users` does not exist yet, for a blank
name and for a name above `MaxKeySize` bytes: nothing is stored and
`GetUserData` returns the zero value instead of the record. -/
theorem SaveUserData_not_stored_counterexample :
    (GetUserData "alice"
        (SaveUserData ⟨"alice", "10.0.0.1", 7, 1, 0, ⟨starterPickaxe⟩, []⟩ DB.empty) = User.zero ∧
      User.zero ≠ ⟨"alice", "10.0.0.1", 7, 1, 0, ⟨starterPickaxe⟩, []⟩) ∧
    (GetUserData "" (SaveUserData ⟨"", "10.0.0.1", 7, 1, 0, ⟨starterPickaxe⟩, []⟩ ⟨some []⟩) =
        User.zero ∧
      User.zero ≠ ⟨"", "10.0.0.1", 7, 1, 0, ⟨starterPickaxe⟩, []⟩) ∧
    (GetUserData longName
        (SaveUserData ⟨longName, "10.0.0.1", 7, 1, 0, ⟨starterPickaxe⟩, []⟩ ⟨some []⟩) =
        User.zero ∧
      User.zero ≠ ⟨longName, "10.0.0.1", 7, 1, 0, ⟨starterPickaxe⟩, []⟩) := by
  refine ⟨⟨by decide, by decide⟩, ⟨by decide, by decide⟩, ⟨?_, ?_⟩⟩
  · have hsave : ∀ r : User, r.Username = longName → SaveUserData r ⟨some []⟩ = ⟨some []⟩ :=
      fun r hr => SaveUserData_refused r _ _ (by rw [hr]; exact Put_long)
    rw [hsave _ rfl, GetUserData_eq]
    simp [DB.entries, Bucket.Get]
  · intro h
    have h2 := congrArg User.Gold h
    simp [User.zero] at h2

theorem scan_spec (ip : String) (b : Bucket) (init : User) :
    ((∀ kv ∈ b, kv.2.IP ≠ ip) ∧
      b.ForEach init (fun value _ user => if user.IP = ip then user else value) = init) ∨
    (∃ l1 kv l2, b = l1 ++ kv :: l2 ∧ kv.2.IP = ip ∧ (∀ x ∈ l2, x.2.IP ≠ ip) ∧
      b.ForEach init (fun value _ user => if user.IP = ip then user else value) = kv.2) := by
  induction b generalizing init with
  | nil => left; simp [Bucket.ForEach]
  | cons x rest ih =>
    by_cases hx : x.2.IP = ip
    · rcases ih x.2 with ⟨hno, hres⟩ | ⟨l1, kv, l2, hb, hkv, hl2, hres⟩
      · right
        refine ⟨[], x, rest, rfl, hx, hno, ?_⟩
        simpa [Bucket.ForEach, hx] using hres
      · right
        refine ⟨x :: l1, kv, l2, by rw [hb]; rfl, hkv, hl2, ?_⟩
        simpa [Bucket.ForEach, hx] using hres
    · rcases ih init with ⟨hno, hres⟩ | ⟨l1, kv, l2, hb, hkv, hl2, hres⟩
      · left
        refine ⟨?_, ?_⟩
        · intro kv hkv
          rcases List.mem_cons.mp hkv with h | h
          · rw [h]; exact hx
          · exact hno kv h
        · simpa [Bucket.ForEach, hx] using hres
      · right
        refine ⟨x :: l1, kv, l2, by rw [hb]; rfl, hkv, hl2, ?_⟩
        simpa [Bucket.ForEach, hx] using hres

theorem GetUserDataByIP_eq (ip : String) (db : DB) :
    GetUserDataByIP ip db =
      db.entries.ForEach User.zero (fun value _ user => if user.IP = ip then user else value) := by
  unfold GetUserDataByIP DB.entries
  cases db.users <;> rfl

/-- C3: `GetUserDataByIP(ip)` returns, among the stored records whose address
is `ip`, the one with the greatest key (every other match has a strictly
smaller key); when no stored record has address `ip` it returns the zero value,
for which `Exists()` is false. -/
theorem GetUserDataByIP_last_match (db : DB) (ip : String) (ho : db.Ordered) :
    ((∃ kv ∈ db.entries, kv.2.IP = ip) →
      ∃ k, (k, GetUserDataByIP ip db) ∈ db.entries ∧ (GetUserDataByIP ip db).IP = ip ∧
        ∀ kv ∈ db.entries, kv.2.IP = ip →
          kv = (k, GetUserDataByIP ip db) ∨ keyLess kv.1 k = true) ∧
    ((∀ kv ∈ db.entries, kv.2.IP ≠ ip) →
      GetUserDataByIP ip db = User.zero ∧ (GetUserDataByIP ip db).Exists = false) := by
  rw [GetUserDataByIP_eq]
  unfold DB.Ordered at ho
  rcases scan_spec ip db.entries User.zero with ⟨hno, hres⟩ | ⟨l1, kv, l2, hb, hkv, hl2, hres⟩
  · refine ⟨?_, ?_⟩
    · rintro ⟨kv, hmem, hip⟩
      exact absurd hip (hno kv hmem)
    · intro _
      rw [hres]
      exact ⟨rfl, rfl⟩
  · refine ⟨?_, ?_⟩
    · intro _
      rw [hres]
      refine ⟨kv.1, ?_, hkv, ?_⟩
      · rw [hb]; simp
      · intro x hx hxip
        rw [hb] at hx ho
        rcases List.mem_append.mp hx with h | h
        · right
          exact (List.pairwise_append.mp ho).2.2 x h kv (List.mem_cons_self _ _)
        · rcases List.mem_cons.mp h with h | h
          · left; rw [h]
          · exact absurd hxip (hl2 x h)
    · intro hall
      exact absurd hkv (hall kv (by rw [hb]; simp))

/-- Witness of C3: `alice` and `bob` share an address and the scan returns
`bob`, the greater key. -/
theorem GetUserDataByIP_last_match_witness :
    ((∃ kv ∈ (Login "bob" "10.0.0.1" (Login "alice" "10.0.0.1" DB.empty)).entries,
        kv.2.IP = "10.0.0.1") →
      ∃ k, (k, GetUserDataByIP "10.0.0.1" (Login "bob" "10.0.0.1" (Login "alice" "10.0.0.1" DB.empty)))
            ∈ (Login "bob" "10.0.0.1" (Login "alice" "10.0.0.1" DB.empty)).entries ∧
        (GetUserDataByIP "10.0.0.1"
          (Login "bob" "10.0.0.1" (Login "alice" "10.0.0.1" DB.empty))).IP = "10.0.0.1" ∧
        ∀ kv ∈ (Login "bob" "10.0.0.1" (Login "alice" "10.0.0.1" DB.empty)).entries,
          kv.2.IP = "10.0.0.1" →
            kv = (k, GetUserDataByIP "10.0.0.1"
              (Login "bob" "10.0.0.1" (Login "alice" "10.0.0.1" DB.empty))) ∨
            keyLess kv.1 k = true) ∧
    ((∀ kv ∈ (Login "bob" "10.0.0.1" (Login "alice" "10.0.0.1" DB.empty)).entries,
        kv.2.IP ≠ "10.0.0.1") →
      GetUserDataByIP "10.0.0.1" (Login "bob" "10.0.0.1" (Login "alice" "10.0.0.1" DB.empty)) =
        User.zero ∧
      (GetUserDataByIP "10.0.0.1"
        (Login "bob" "10.0.0.1" (Login "alice" "10.0.0.1" DB.empty))).Exists = false) :=
  GetUserDataByIP_last_match (Login "bob" "10.0.0.1" (Login "alice" "10.0.0.1" DB.empty))
    "10.0.0.1" (by decide)

theorem wrapInt_of_Fits {x : Int} (h : Fits x) : wrapInt x = x := by
  unfold Fits at h
  unfold wrapInt
  omega

theorem Fits_wrapInt (x : Int) : Fits (wrapInt x) := by
  unfold Fits wrapInt
  omega

theorem index?_natCast {α : Type} (xs : List α) (n : Nat) : index? xs (n : Int) = xs[n]? := by
  simp [index?]

theorem index?_of_lt {α : Type} (xs : List α) (n : Nat) (h : n < xs.length) :
    index? xs (n : Int) = some xs[n] := by
  rw [index?_natCast, List.getElem?_eq_getElem h]

theorem ShopItem_pickaxe_eq (cat : Catalog) (db : DB) (ip : String)
    (hlog : (GetUserDataByIP ip db).Exists = true) (n : Nat)
    (hn : n < cat.cachedSortedPickaxes.length) :
    ShopItem cat ip (n + 1) db =
      if (GetUserDataByIP ip db).Gold < cat.cachedSortedPickaxes[n].Price then
        (Outcome.notEnoughGold, db)
      else
        (Outcome.bought cat.cachedSortedPickaxes[n].Name,
          SaveUserData { GetUserDataByIP ip db with
            Gold := wrapInt ((GetUserDataByIP ip db).Gold - cat.cachedSortedPickaxes[n].Price)
            Inventory := { Pickaxe := cat.cachedSortedPickaxes[n] } } db) := by
  have h1 : ¬ ((n : Int) + 1 < 1 ∨ (n : Int) + 1 > (cat.cachedSortedPickaxes.length : Int)) := by
    omega
  have h2 : (n : Int) + 1 - 1 = (n : Int) := by omega
  simp only [ShopItem, hlog, Bool.not_true, Bool.false_eq_true, if_false, h1, h2,
    index?_of_lt _ _ hn]

theorem handleUpgradePurchase_eq (cat : Catalog) (r : User) (db : DB) (m : Nat)
    (hm : m < cat.cachedSortedUpgrades.length) :
    handleUpgradePurchase cat r (cat.cachedSortedPickaxes.length + m + 1) db =
      if r.Diamond < cat.cachedSortedUpgrades[m].Price then (Outcome.notEnoughDiamonds, db)
      else
        (Outcome.bought cat.cachedSortedUpgrades[m].Name,
          SaveUserData { r with
            Diamond := wrapInt (r.Diamond - cat.cachedSortedUpgrades[m].Price)
            Upgrades := r.Upgrades ++ [cat.cachedSortedUpgrades[m]] } db) := by
  have h2 : (cat.cachedSortedPickaxes.length : Int) + m + 1 - 1 - cat.cachedSortedPickaxes.length
      = (m : Int) := by omega
  simp only [handleUpgradePurchase, h2, index?_of_lt _ _ hm]

theorem ShopItem_upgrade_eq (cat : Catalog) (db : DB) (ip : String)
    (hlog : (GetUserDataByIP ip db).Exists = true) (m : Nat)
    (hm : m < cat.cachedSortedUpgrades.length) :
    ShopItem cat ip (cat.cachedSortedPickaxes.length + m + 1) db =
      handleUpgradePurchase cat (GetUserDataByIP ip db)
        (cat.cachedSortedPickaxes.length + m + 1) db := by
  have h1 : ((cat.cachedSortedPickaxes.length : Int) + m + 1 < 1 ∨
      (cat.cachedSortedPickaxes.length : Int) + m + 1 > cat.cachedSortedPickaxes.length) := by
    omega
  have h3 : ¬ ((cat.cachedSortedPickaxes.length : Int) + m + 1 < 1 ∨
      (cat.cachedSortedPickaxes.length : Int) + m + 1 >
        cat.cachedSortedPickaxes.length + cat.cachedSortedUpgrades.length) := by
    omega
  simp only [ShopItem, hlog, Bool.not_true, Bool.false_eq_true, if_false, h1, h3, if_true]

theorem ShopItem_invalid_eq (cat : Catalog) (db : DB) (ip : String)
    (hlog : (GetUserDataByIP ip db).Exists = true) (i : Int)
    (hi : i < 1 ∨ (cat.cachedSortedPickaxes.length : Int) + cat.cachedSortedUpgrades.length < i) :
    ShopItem cat ip i db = (Outcome.invalidItem, db) := by
  have h1 : (i < 1 ∨ i > (cat.cachedSortedPickaxes.length : Int)) := by omega
  have h3 : (i < 1 ∨
      i > (cat.cachedSortedPickaxes.length : Int) + cat.cachedSortedUpgrades.length) := by
    omega
  simp only [ShopItem, hlog, Bool.not_true, Bool.false_eq_true, if_false, h1, h3, if_true]

theorem ShopItem_no_panic (cat : Catalog) (db : DB) (ip : String) (i : Int) :
    (ShopItem cat ip i db).1 ≠ Outcome.panic := by
  by_cases hlog : (GetUserDataByIP ip db).Exists = true
  · by_cases h1 : i < 1 ∨
        (cat.cachedSortedPickaxes.length : Int) + cat.cachedSortedUpgrades.length < i
    · rw [ShopItem_invalid_eq cat db ip hlog i h1]; simp
    · by_cases h2 : i ≤ (cat.cachedSortedPickaxes.length : Int)
      · obtain ⟨n, hn⟩ : ∃ n : Nat, i = (n : Int) + 1 := ⟨(i - 1).toNat, by omega⟩
        subst hn
        have hlt : n < cat.cachedSortedPickaxes.length := by omega
        rw [ShopItem_pickaxe_eq cat db ip hlog n hlt]
        split <;> simp
      · obtain ⟨m, hm⟩ : ∃ m : Nat, i = (cat.cachedSortedPickaxes.length : Int) + m + 1 :=
          ⟨(i - 1 - cat.cachedSortedPickaxes.length).toNat, by omega⟩
        subst hm
        have hlt : m < cat.cachedSortedUpgrades.length := by omega
        rw [ShopItem_upgrade_eq cat db ip hlog m hlt, handleUpgradePurchase_eq cat _ db m hlt]
        split <;> simp
  · simp [ShopItem, hlog]

theorem Init_sorted (items : ShopItems) :
    (Init items).cachedSortedPickaxes.Sorted (fun a b => a.Price ≤ b.Price) ∧
    (Init items).cachedSortedUpgrades.Sorted (fun a b => a.Price ≤ b.Price) := by
  haveI : IsTotal Pickaxe (fun a b => a.Price ≤ b.Price) := ⟨fun a b => le_total a.Price b.Price⟩
  haveI : IsTrans Pickaxe (fun a b => a.Price ≤ b.Price) := ⟨fun _ _ _ h1 h2 => le_trans h1 h2⟩
  haveI : IsTotal Upgrade (fun a b => a.Price ≤ b.Price) := ⟨fun a b => le_total a.Price b.Price⟩
  haveI : IsTrans Upgrade (fun a b => a.Price ≤ b.Price) := ⟨fun _ _ _ h1 h2 => le_trans h1 h2⟩
  exact ⟨List.sorted_insertionSort _ _, List.sorted_insertionSort _ _⟩

theorem GetUserDataByIP_mem (ip : String) (db : DB)
    (hlog : (GetUserDataByIP ip db).Exists = true) :
    ∃ k, (k, GetUserDataByIP ip db) ∈ db.entries := by
  rw [GetUserDataByIP_eq] at hlog ⊢
  rcases scan_spec ip db.entries User.zero with ⟨_, hres⟩ | ⟨l1, kv, l2, hb, _, _, hres⟩
  · rw [hres] at hlog
    exact absurd hlog (by decide)
  · rw [hres]
    exact ⟨kv.1, by rw [hb]; simp⟩

theorem isSome_of_mem {db : DB} {kv : String × User} (h : kv ∈ db.entries) :
    db.users.isSome = true := by
  unfold DB.entries at h
  cases hu : db.users with
  | none => rw [hu] at h; simp at h
  | some b => rfl

/-- C4: with a logged-in account at `ip`, `ShopItem` treats index `n + 1` for
`n < len(P)` as the purchase of the pickaxe `P[n]`, index `len(P) + m + 1` for
`m < len(U)` as the purchase of the upgrade `U[m]` (the balance less the price
being a 64-bit subtraction), and every other index
(below 1 or above `len(P) + len(U)`) as an invalid item with the store
unchanged; no index makes a list access panic; and the lists `Init` builds
are in non-decreasing price order. -/
theorem ShopItem_lookup (cat : Catalog) (db : DB) (ip : String)
    (hlog : (GetUserDataByIP ip db).Exists = true) :
    (∀ (n : Nat) (hn : n < cat.cachedSortedPickaxes.length),
      ShopItem cat ip (n + 1) db =
        if (GetUserDataByIP ip db).Gold < cat.cachedSortedPickaxes[n].Price then
          (Outcome.notEnoughGold, db)
        else
          (Outcome.bought cat.cachedSortedPickaxes[n].Name,
            SaveUserData { GetUserDataByIP ip db with
              Gold := wrapInt ((GetUserDataByIP ip db).Gold - cat.cachedSortedPickaxes[n].Price)
              Inventory := { Pickaxe := cat.cachedSortedPickaxes[n] } } db)) ∧
    (∀ (m : Nat) (hm : m < cat.cachedSortedUpgrades.length),
      ShopItem cat ip (cat.cachedSortedPickaxes.length + m + 1) db =
        if (GetUserDataByIP ip db).Diamond < cat.cachedSortedUpgrades[m].Price then
          (Outcome.notEnoughDiamonds, db)
        else
          (Outcome.bought cat.cachedSortedUpgrades[m].Name,
            SaveUserData { GetUserDataByIP ip db with
              Diamond :=
                wrapInt ((GetUserDataByIP ip db).Diamond - cat.cachedSortedUpgrades[m].Price)
              Upgrades := (GetUserDataByIP ip db).Upgrades ++ [cat.cachedSortedUpgrades[m]] }
              db)) ∧
    (∀ i : Int,
      i < 1 ∨ (cat.cachedSortedPickaxes.length : Int) + cat.cachedSortedUpgrades.length < i →
        ShopItem cat ip i db = (Outcome.invalidItem, db)) ∧
    (∀ i : Int, (ShopItem cat ip i db).1 ≠ Outcome.panic) ∧
    (∀ items : ShopItems, cat = Init items →
      cat.cachedSortedPickaxes.Sorted (fun a b => a.Price ≤ b.Price) ∧
      cat.cachedSortedUpgrades.Sorted (fun a b => a.Price ≤ b.Price)) := by
  refine ⟨fun n hn => ShopItem_pickaxe_eq cat db ip hlog n hn, fun m hm => ?_,
    fun i hi => ShopItem_invalid_eq cat db ip hlog i hi, fun i => ShopItem_no_panic cat db ip i,
    fun items h => h ▸ Init_sorted items⟩
  rw [ShopItem_upgrade_eq cat db ip hlog m hm, handleUpgradePurchase_eq cat _ db m hm]

/-- Witness of C4: the catalog of three pickaxes and two upgrades, `alice`
logged in at `10.0.0.1`. -/
theorem ShopItem_lookup_witness :
    (GetUserDataByIP "10.0.0.1" exampleDB).Exists = true ∧
    ShopItem (Init exampleItems) "10.0.0.1" 0 exampleDB = (Outcome.invalidItem, exampleDB) ∧
    ShopItem (Init exampleItems) "10.0.0.1" 6 exampleDB = (Outcome.invalidItem, exampleDB) ∧
    (ShopItem (Init exampleItems) "10.0.0.1" 3 exampleDB).1 ≠ Outcome.panic ∧
    (Init exampleItems).cachedSortedPickaxes.Sorted (fun a b => a.Price ≤ b.Price) :=
  ⟨by decide,
    (ShopItem_lookup (Init exampleItems) exampleDB "10.0.0.1" (by decide)).2.2.1 0
      (Or.inl (by decide)),
    (ShopItem_lookup (Init exampleItems) exampleDB "10.0.0.1" (by decide)).2.2.1 6
      (Or.inr (by decide)),
    (ShopItem_lookup (Init exampleItems) exampleDB "10.0.0.1" (by decide)).2.2.2.1 3,
    ((ShopItem_lookup (Init exampleItems) exampleDB "10.0.0.1" (by decide)).2.2.2.2
      exampleItems rfl).1⟩

/-- C5, amended: for the record `r` logged in at `ip` and the catalog pickaxe
`t = P[n]`, the purchase `ShopItem` makes for index `n + 1` succeeds exactly
when `r.Gold >= t.Price`; on success it saves `r` with the equipped pickaxe
replaced by `t` and `Gold` set to the 64-bit result of `r.Gold - t.Price`,
every other field as in `r`; when `r.Gold - t.Price` does not exceed the
largest `int`, `2^63 - 1`, that is `Gold` reduced by `t.Price`, the record
then read back under `r.Username` in a store keyed by name, with `Gold = 0`
when `r.Gold = t.Price`; on failure nothing is saved and the store is
unchanged. -/
theorem ShopItem_pickaxe_purchase (cat : Catalog) (db : DB) (ip : String) (n : Nat)
    (hn : n < cat.cachedSortedPickaxes.length)
    (hlog : (GetUserDataByIP ip db).Exists = true) :
    ((ShopItem cat ip (n + 1) db).1 = Outcome.bought cat.cachedSortedPickaxes[n].Name ↔
      cat.cachedSortedPickaxes[n].Price ≤ (GetUserDataByIP ip db).Gold) ∧
    (cat.cachedSortedPickaxes[n].Price ≤ (GetUserDataByIP ip db).Gold →
      (ShopItem cat ip (n + 1) db).2 =
        SaveUserData { GetUserDataByIP ip db with
          Gold := wrapInt ((GetUserDataByIP ip db).Gold - cat.cachedSortedPickaxes[n].Price)
          Inventory := { Pickaxe := cat.cachedSortedPickaxes[n] } } db) ∧
    (cat.cachedSortedPickaxes[n].Price ≤ (GetUserDataByIP ip db).Gold →
      (GetUserDataByIP ip db).Gold - cat.cachedSortedPickaxes[n].Price ≤ 9223372036854775807 →
      (ShopItem cat ip (n + 1) db).2 =
        SaveUserData { GetUserDataByIP ip db with
          Gold := (GetUserDataByIP ip db).Gold - cat.cachedSortedPickaxes[n].Price
          Inventory := { Pickaxe := cat.cachedSortedPickaxes[n] } } db ∧
      (db.Keyed →
        GetUserData (GetUserDataByIP ip db).Username (ShopItem cat ip (n + 1) db).2 =
          { GetUserDataByIP ip db with
            Gold := (GetUserDataByIP ip db).Gold - cat.cachedSortedPickaxes[n].Price
            Inventory := { Pickaxe := cat.cachedSortedPickaxes[n] } })) ∧
    ((GetUserDataByIP ip db).Gold = cat.cachedSortedPickaxes[n].Price → db.Keyed →
      (GetUserData (GetUserDataByIP ip db).Username (ShopItem cat ip (n + 1) db).2).Gold = 0) ∧
    ((GetUserDataByIP ip db).Gold < cat.cachedSortedPickaxes[n].Price →
      ShopItem cat ip (n + 1) db = (Outcome.notEnoughGold, db)) := by
  have heq := ShopItem_pickaxe_eq cat db ip hlog n hn
  have hexact : cat.cachedSortedPickaxes[n].Price ≤ (GetUserDataByIP ip db).Gold →
      (GetUserDataByIP ip db).Gold - cat.cachedSortedPickaxes[n].Price ≤ 9223372036854775807 →
      (ShopItem cat ip (n + 1) db).2 =
        SaveUserData { GetUserDataByIP ip db with
          Gold := (GetUserDataByIP ip db).Gold - cat.cachedSortedPickaxes[n].Price
          Inventory := { Pickaxe := cat.cachedSortedPickaxes[n] } } db := by
    intro h hfit
    rw [heq, if_neg (not_lt.mpr h), wrapInt_of_Fits ⟨by omega, hfit⟩]
  have hread : cat.cachedSortedPickaxes[n].Price ≤ (GetUserDataByIP ip db).Gold →
      (GetUserDataByIP ip db).Gold - cat.cachedSortedPickaxes[n].Price ≤ 9223372036854775807 →
      db.Keyed →
      GetUserData (GetUserDataByIP ip db).Username (ShopItem cat ip (n + 1) db).2 =
        { GetUserDataByIP ip db with
          Gold := (GetUserDataByIP ip db).Gold - cat.cachedSortedPickaxes[n].Price
          Inventory := { Pickaxe := cat.cachedSortedPickaxes[n] } } := by
    intro h hfit hk
    obtain ⟨k, hmem⟩ := GetUserDataByIP_mem ip db hlog
    obtain ⟨hname, hne, hlen⟩ := hk _ hmem
    simp only at hname hne hlen
    rw [hexact h hfit]
    exact GetUserData_SaveUserData db
      { GetUserDataByIP ip db with
        Gold := (GetUserDataByIP ip db).Gold - cat.cachedSortedPickaxes[n].Price
        Inventory := { Pickaxe := cat.cachedSortedPickaxes[n] } }
      (isSome_of_mem hmem) (by rw [hname]; exact hne) (by rw [hname]; exact hlen)
  refine ⟨?_, fun h => ?_, fun h hfit => ⟨hexact h hfit, hread h hfit⟩, ?_, fun h => ?_⟩
  · rw [heq]
    constructor
    · intro hb
      by_contra hlt
      rw [if_pos (not_le.mp hlt)] at hb
      simp at hb
    · intro h
      rw [if_neg (not_lt.mpr h)]
  · rw [heq, if_neg (not_lt.mpr h)]
  · intro he hk
    rw [hread (le_of_eq he.symm) (by omega) hk]
    simp [he]
  · rw [heq, if_pos h]

/-- Witness of C5: `alice` holds 10 gold; she buys the pickaxe priced 10
(index 1) and is left with 0 gold, and is refused the one priced 50 (index 2). -/
theorem ShopItem_pickaxe_purchase_witness :
    (GetUserDataByIP "10.0.0.1" exampleDB).Exists = true ∧
    (GetUserDataByIP "10.0.0.1" exampleDB).Gold = 10 ∧
    (Init exampleItems).cachedSortedPickaxes[0]? = some ⟨"stone", "Stone Pickaxe", 10, 2, 6⟩ ∧
    GetUserData "alice" (ShopItem (Init exampleItems) "10.0.0.1" 1 exampleDB).2 =
      { exampleUser with Gold := 0, Inventory := ⟨⟨"stone", "Stone Pickaxe", 10, 2, 6⟩⟩ } ∧
    ShopItem (Init exampleItems) "10.0.0.1" 2 exampleDB = (Outcome.notEnoughGold, exampleDB) ∧
    ((ShopItem (Init exampleItems) "10.0.0.1" ((0 : Nat) + 1) exampleDB).1 =
        Outcome.bought ((Init exampleItems).cachedSortedPickaxes.get ⟨0, by decide⟩).Name ↔
      ((Init exampleItems).cachedSortedPickaxes.get ⟨0, by decide⟩).Price ≤
        (GetUserDataByIP "10.0.0.1" exampleDB).Gold) :=
  ⟨by decide, by decide, by decide, by decide, by decide,
    (ShopItem_pickaxe_purchase (Init exampleItems) exampleDB "10.0.0.1" 0 (by decide)
      (by decide)).1⟩

/-- C5 as stated fails when the subtraction leaves the 64-bit range: `alice`
holds `2^63 - 2` gold (login, free rich pickaxe, one mine) and buys the
pickaxe priced -2; the purchase succeeds and the saved `Gold` is `-2^63`, not
`r.Gold - t.Price = 2^63`. -/
theorem ShopItem_pickaxe_wraps_counterexample :
    (GetUserDataByIP "10.0.0.1" richDB).Exists = true ∧
    (GetUserDataByIP "10.0.0.1" richDB).Gold = 9223372036854775806 ∧
    (Init richItems).cachedSortedPickaxes[0]? = some ⟨"gift", "Gift Pickaxe", -2, 1, 5⟩ ∧
    (ShopItem (Init richItems) "10.0.0.1" 1 richDB).1 = Outcome.bought "Gift Pickaxe" ∧
    (GetUserData "alice" (ShopItem (Init richItems) "10.0.0.1" 1 richDB).2).Gold =
      -9223372036854775808 ∧
    (GetUserData "alice" (ShopItem (Init richItems) "10.0.0.1" 1 richDB).2).Gold ≠
      (GetUserDataByIP "10.0.0.1" richDB).Gold - (-2) := by
  refine ⟨by decide, by decide, by decide, by decide, by decide, by decide⟩

/-- C6, amended: for every record `r` and the catalog upgrade `g = U[m]`,
`handleUpgradePurchase` succeeds exactly when `r.Diamond >= g.Price`; on
success it saves `r` with `g` appended at the end of `Upgrades`, whether or
not `r` already owns an upgrade of that id, so the list grows by exactly one,
and with `Diamond` set to the 64-bit result of `r.Diamond - g.Price`; when
`r.Diamond - g.Price` does not exceed the largest `int`, `2^63 - 1`, that is
`Diamond` reduced by `g.Price`, the record read back where `SaveUserData` can
store; on failure nothing is saved. -/
theorem handleUpgradePurchase_purchase (cat : Catalog) (r : User) (db : DB) (m : Nat)
    (hm : m < cat.cachedSortedUpgrades.length) :
    ((handleUpgradePurchase cat r (cat.cachedSortedPickaxes.length + m + 1) db).1 =
        Outcome.bought cat.cachedSortedUpgrades[m].Name ↔
      cat.cachedSortedUpgrades[m].Price ≤ r.Diamond) ∧
    (cat.cachedSortedUpgrades[m].Price ≤ r.Diamond →
      (handleUpgradePurchase cat r (cat.cachedSortedPickaxes.length + m + 1) db).2 =
        SaveUserData { r with
          Diamond := wrapInt (r.Diamond - cat.cachedSortedUpgrades[m].Price)
          Upgrades := r.Upgrades ++ [cat.cachedSortedUpgrades[m]] } db ∧
      (r.Upgrades ++ [cat.cachedSortedUpgrades[m]]).length = r.Upgrades.length + 1) ∧
    (cat.cachedSortedUpgrades[m].Price ≤ r.Diamond →
      r.Diamond - cat.cachedSortedUpgrades[m].Price ≤ 9223372036854775807 →
      (handleUpgradePurchase cat r (cat.cachedSortedPickaxes.length + m + 1) db).2 =
        SaveUserData { r with
          Diamond := r.Diamond - cat.cachedSortedUpgrades[m].Price
          Upgrades := r.Upgrades ++ [cat.cachedSortedUpgrades[m]] } db ∧
      (db.users.isSome = true → r.Username ≠ "" → r.Username.utf8ByteSize ≤ MaxKeySize →
        GetUserData r.Username
            (handleUpgradePurchase cat r (cat.cachedSortedPickaxes.length + m + 1) db).2 =
          { r with
            Diamond := r.Diamond - cat.cachedSortedUpgrades[m].Price
            Upgrades := r.Upgrades ++ [cat.cachedSortedUpgrades[m]] })) ∧
    (r.Diamond < cat.cachedSortedUpgrades[m].Price →
      handleUpgradePurchase cat r (cat.cachedSortedPickaxes.length + m + 1) db =
        (Outcome.notEnoughDiamonds, db)) := by
  have heq := handleUpgradePurchase_eq cat r db m hm
  have hexact : cat.cachedSortedUpgrades[m].Price ≤ r.Diamond →
      r.Diamond - cat.cachedSortedUpgrades[m].Price ≤ 9223372036854775807 →
      (handleUpgradePurchase cat r (cat.cachedSortedPickaxes.length + m + 1) db).2 =
        SaveUserData { r with
          Diamond := r.Diamond - cat.cachedSortedUpgrades[m].Price
          Upgrades := r.Upgrades ++ [cat.cachedSortedUpgrades[m]] } db := by
    intro h hfit
    rw [heq, if_neg (not_lt.mpr h), wrapInt_of_Fits ⟨by omega, hfit⟩]
  refine ⟨?_, fun h => ⟨?_, by simp⟩, fun h hfit => ⟨hexact h hfit, fun hb hu hlen => ?_⟩,
    fun h => ?_⟩
  · rw [heq]
    constructor
    · intro hb
      by_contra hlt
      rw [if_pos (not_le.mp hlt)] at hb
      simp at hb
    · intro h
      rw [if_neg (not_lt.mpr h)]
  · rw [heq, if_neg (not_lt.mpr h)]
  · rw [hexact h hfit]
    exact GetUserData_SaveUserData db
      { r with
        Diamond := r.Diamond - cat.cachedSortedUpgrades[m].Price
        Upgrades := r.Upgrades ++ [cat.cachedSortedUpgrades[m]] } hb hu hlen
  · rw [heq, if_pos h]

/-- Witness of C6: `alice` owns `gold_multiplier_2`, holds 2 diamonds and buys
`gold_multiplier_2` (index 4, price 2) a second time. -/
theorem handleUpgradePurchase_purchase_witness :
    (Init exampleItems).cachedSortedUpgrades[0]? =
      some ⟨"gold_multiplier_2", "Double Gold", "Twice the gold", 2⟩ ∧
    exampleUser.HasUpgradeId "gold_multiplier_2" = true ∧
    GetUserData "alice"
      (handleUpgradePurchase (Init exampleItems) exampleUser 4 exampleDB).2 =
        { exampleUser with
          Diamond := 0
          Upgrades :=
            [⟨"gold_multiplier_2", "Double Gold", "Twice the gold", 2⟩,
             ⟨"gold_multiplier_2", "Double Gold", "Twice the gold", 2⟩] } ∧
    ((handleUpgradePurchase (Init exampleItems) exampleUser
          ((Init exampleItems).cachedSortedPickaxes.length + (0 : Nat) + 1) exampleDB).1 =
        Outcome.bought ((Init exampleItems).cachedSortedUpgrades.get ⟨0, by decide⟩).Name ↔
      ((Init exampleItems).cachedSortedUpgrades.get ⟨0, by decide⟩).Price ≤
        exampleUser.Diamond) :=
  ⟨by decide, by decide, by decide,
    (handleUpgradePurchase_purchase (Init exampleItems) exampleUser exampleDB 0 (by decide)).1⟩

/-- C6 as stated fails when the subtraction leaves the 64-bit range: `alice`
holds 8000000000000000000 diamonds (two purchases of the upgrade priced
-4000000000000000000) and buys it a third time; the purchase succeeds and the
saved `Diamond` is -6446744073709551616, not `r.Diamond - g.Price`. -/
theorem handleUpgradePurchase_wraps_counterexample :
    (GetUserDataByIP "10.0.0.1" grantDB).Diamond = 8000000000000000000 ∧
    (Init grantItems).cachedSortedUpgrades[0]? =
      some ⟨"grant", "Grant", "Pays its buyer", -4000000000000000000⟩ ∧
    (handleUpgradePurchase (Init grantItems) (GetUserDataByIP "10.0.0.1" grantDB) 1 grantDB).1 =
      Outcome.bought "Grant" ∧
    (GetUserData "alice"
      (handleUpgradePurchase (Init grantItems) (GetUserDataByIP "10.0.0.1" grantDB) 1
        grantDB).2).Diamond = -6446744073709551616 ∧
    (GetUserData "alice"
      (handleUpgradePurchase (Init grantItems) (GetUserDataByIP "10.0.0.1" grantDB) 1
        grantDB).2).Diamond ≠
      (GetUserDataByIP "10.0.0.1" grantDB).Diamond - (-4000000000000000000) := by
  refine ⟨by decide, by decide, by decide, by decide, by decide⟩

theorem randIntn_of_pos (seed : Nat) (n : Int) (h : 0 < n) :
    randIntn seed n = some ((seed : Int) % n) := by
  simp [randIntn, not_le.mpr h]

theorem randIntn_of_nonpos (seed : Nat) (n : Int) (h : n ≤ 0) : randIntn seed n = none := by
  simp [randIntn, h]

/-- Every value of `[0, n)` is the draw of some entropy. -/
theorem randIntn_onto (n k : Int) (h0 : 0 ≤ k) (hk : k < n) :
    ∃ seed : Nat, randIntn seed n = some k := by
  refine ⟨k.toNat, ?_⟩
  rw [randIntn_of_pos _ _ (by omega), Int.toNat_of_nonneg h0, Int.emod_eq_of_lt h0 hk]

theorem HasUpgradeId_iff (u : User) (upgradeId : String) :
    u.HasUpgradeId upgradeId = true ↔ ∃ x ∈ u.Upgrades, x.Id = upgradeId := by
  simp [User.HasUpgradeId]

theorem GetGoldMultiplier_cases (u : User) :
    u.GetGoldMultiplier = 1 ∨ u.GetGoldMultiplier = 2 ∨ u.GetGoldMultiplier = 3 := by
  unfold User.GetGoldMultiplier
  split_ifs <;> simp

theorem GetDiamondMultiplier_cases (u : User) :
    u.GetDiamondMultiplier = 1 ∨ u.GetDiamondMultiplier = 2 := by
  unfold User.GetDiamondMultiplier
  split_ifs <;> simp

/-- What `mine` returns once the bound of the draw is known to be positive. -/
theorem mine_eq (db : DB) (ip : String) (seed : Nat) (foundDiamond : Bool)
    (hlog : (GetUserDataByIP ip db).Username ≠ "")
    (hpos : 0 < wrapInt ((GetUserDataByIP ip db).Inventory.Pickaxe.MaxGold -
      (GetUserDataByIP ip db).Inventory.Pickaxe.MinGold)) :
    mine ip seed foundDiamond db =
      (Outcome.mined
        (wrapInt (wrapInt ((seed : Int) %
            wrapInt ((GetUserDataByIP ip db).Inventory.Pickaxe.MaxGold -
              (GetUserDataByIP ip db).Inventory.Pickaxe.MinGold) +
          (GetUserDataByIP ip db).Inventory.Pickaxe.MinGold) *
          (GetUserDataByIP ip db).GetGoldMultiplier))
        (if foundDiamond = true then wrapInt (1 * (GetUserDataByIP ip db).GetDiamondMultiplier)
          else 0),
       Mine (GetUserDataByIP ip db)
        (wrapInt (wrapInt ((seed : Int) %
            wrapInt ((GetUserDataByIP ip db).Inventory.Pickaxe.MaxGold -
              (GetUserDataByIP ip db).Inventory.Pickaxe.MinGold) +
          (GetUserDataByIP ip db).Inventory.Pickaxe.MinGold) *
          (GetUserDataByIP ip db).GetGoldMultiplier))
        (if foundDiamond = true then wrapInt (1 * (GetUserDataByIP ip db).GetDiamondMultiplier)
          else 0) db) := by
  simp only [mine, hlog, if_false, randIntn_of_pos seed _ hpos]

/-- C7, amended: for the record `r` logged in at `ip` whose equipped pickaxe
has `MinGold < MaxGold`, with the range width `MaxGold - MinGold` and the
extreme yields `MinGold * m` and `(MaxGold - 1) * m` inside the 64-bit range
(`m = GetGoldMultiplier(r)`),
whatever the random draws, `mine` reports and persists a gold yield `d * m`
with `MinGold <= d < MaxGold`, where `m` is 3 when `r` owns
`gold_multiplier_3`, else 2 when it owns `gold_multiplier_2`, else 1; with
range `[1, 5)` and multiplier 1 the yield is one of 1, 2, 3, 4. -/
theorem mine_gold_yield (db : DB) (ip : String) (seed : Nat) (foundDiamond : Bool)
    (hlog : (GetUserDataByIP ip db).Username ≠ "")
    (hrange : (GetUserDataByIP ip db).Inventory.Pickaxe.MinGold <
      (GetUserDataByIP ip db).Inventory.Pickaxe.MaxGold)
    (hwidth : Fits ((GetUserDataByIP ip db).Inventory.Pickaxe.MaxGold -
      (GetUserDataByIP ip db).Inventory.Pickaxe.MinGold))
    (hlow : Fits ((GetUserDataByIP ip db).Inventory.Pickaxe.MinGold *
      (GetUserDataByIP ip db).GetGoldMultiplier))
    (hhigh : Fits (((GetUserDataByIP ip db).Inventory.Pickaxe.MaxGold - 1) *
      (GetUserDataByIP ip db).GetGoldMultiplier)) :
    (∃ d diamonds : Int,
      (GetUserDataByIP ip db).Inventory.Pickaxe.MinGold ≤ d ∧
      d < (GetUserDataByIP ip db).Inventory.Pickaxe.MaxGold ∧
      mine ip seed foundDiamond db =
        (Outcome.mined (d * (GetUserDataByIP ip db).GetGoldMultiplier) diamonds,
          Mine (GetUserDataByIP ip db) (d * (GetUserDataByIP ip db).GetGoldMultiplier)
            diamonds db)) ∧
    (((∃ x ∈ (GetUserDataByIP ip db).Upgrades, x.Id = "gold_multiplier_3") →
        (GetUserDataByIP ip db).GetGoldMultiplier = 3) ∧
      ((¬ ∃ x ∈ (GetUserDataByIP ip db).Upgrades, x.Id = "gold_multiplier_3") →
        (∃ x ∈ (GetUserDataByIP ip db).Upgrades, x.Id = "gold_multiplier_2") →
        (GetUserDataByIP ip db).GetGoldMultiplier = 2) ∧
      ((¬ ∃ x ∈ (GetUserDataByIP ip db).Upgrades, x.Id = "gold_multiplier_3") →
        (¬ ∃ x ∈ (GetUserDataByIP ip db).Upgrades, x.Id = "gold_multiplier_2") →
        (GetUserDataByIP ip db).GetGoldMultiplier = 1)) ∧
    ((GetUserDataByIP ip db).Inventory.Pickaxe.MinGold = 1 →
      (GetUserDataByIP ip db).Inventory.Pickaxe.MaxGold = 5 →
      (GetUserDataByIP ip db).GetGoldMultiplier = 1 →
      ∃ gold diamonds : Int, (gold = 1 ∨ gold = 2 ∨ gold = 3 ∨ gold = 4) ∧
        (mine ip seed foundDiamond db).1 = Outcome.mined gold diamonds) := by
  have hw : wrapInt ((GetUserDataByIP ip db).Inventory.Pickaxe.MaxGold -
      (GetUserDataByIP ip db).Inventory.Pickaxe.MinGold) =
      (GetUserDataByIP ip db).Inventory.Pickaxe.MaxGold -
        (GetUserDataByIP ip db).Inventory.Pickaxe.MinGold :=
    wrapInt_of_Fits hwidth
  unfold Fits at hlow hhigh
  have hpos : 0 < (GetUserDataByIP ip db).Inventory.Pickaxe.MaxGold -
      (GetUserDataByIP ip db).Inventory.Pickaxe.MinGold := by omega
  have hlo := Int.emod_nonneg (seed : Int) (ne_of_gt hpos)
  have hhi := Int.emod_lt_of_pos (seed : Int) hpos
  have hd : Fits ((seed : Int) % ((GetUserDataByIP ip db).Inventory.Pickaxe.MaxGold -
      (GetUserDataByIP ip db).Inventory.Pickaxe.MinGold) +
      (GetUserDataByIP ip db).Inventory.Pickaxe.MinGold) := by
    unfold Fits
    rcases GetGoldMultiplier_cases (GetUserDataByIP ip db) with hm | hm | hm <;>
      rw [hm] at hlow hhigh <;> constructor <;> omega
  have hprod : Fits (((seed : Int) % ((GetUserDataByIP ip db).Inventory.Pickaxe.MaxGold -
      (GetUserDataByIP ip db).Inventory.Pickaxe.MinGold) +
      (GetUserDataByIP ip db).Inventory.Pickaxe.MinGold) *
      (GetUserDataByIP ip db).GetGoldMultiplier) := by
    unfold Fits
    rcases GetGoldMultiplier_cases (GetUserDataByIP ip db) with hm | hm | hm <;>
      rw [hm] at hlow hhigh ⊢ <;> constructor <;> omega
  have hmine := mine_eq db ip seed foundDiamond hlog (by rw [hw]; exact hpos)
  rw [hw, wrapInt_of_Fits hd, wrapInt_of_Fits hprod] at hmine
  refine ⟨⟨_, _, ?_, ?_, hmine⟩, ⟨?_, ?_, ?_⟩, ?_⟩
  · omega
  · omega
  · intro h3
    simp [User.GetGoldMultiplier, (HasUpgradeId_iff _ _).mpr h3]
  · intro h3 h2
    have h3' : (GetUserDataByIP ip db).HasUpgradeId "gold_multiplier_3" = false := by
      rw [← Bool.not_eq_true, HasUpgradeId_iff]; exact h3
    simp [User.GetGoldMultiplier, h3', (HasUpgradeId_iff _ _).mpr h2]
  · intro h3 h2
    have h3' : (GetUserDataByIP ip db).HasUpgradeId "gold_multiplier_3" = false := by
      rw [← Bool.not_eq_true, HasUpgradeId_iff]; exact h3
    have h2' : (GetUserDataByIP ip db).HasUpgradeId "gold_multiplier_2" = false := by
      rw [← Bool.not_eq_true, HasUpgradeId_iff]; exact h2
    simp [User.GetGoldMultiplier, h3', h2']
  · intro hmin hmax hmult
    rw [hmine, hmult, hmin, hmax]
    rw [hmin, hmax] at hlo hhi
    refine ⟨_, _, ?_, rfl⟩
    omega

/-- Witness of C7: `bob`, logged in with the starter pickaxe and no upgrade. -/
theorem mine_gold_yield_witness :
    (GetUserDataByIP "10.0.0.2" (Login "bob" "10.0.0.2" DB.empty)).Username ≠ "" ∧
    (GetUserDataByIP "10.0.0.2" (Login "bob" "10.0.0.2" DB.empty)).Inventory.Pickaxe =
      ⟨"", "Rusty Pickaxe", 0, 1, 5⟩ ∧
    (GetUserDataByIP "10.0.0.2" (Login "bob" "10.0.0.2" DB.empty)).GetGoldMultiplier = 1 ∧
    mine "10.0.0.2" 7 false (Login "bob" "10.0.0.2" DB.empty) =
      (Outcome.mined 4 0,
        ⟨some [("bob", ⟨"bob", "10.0.0.2", 4, 0, 0, ⟨starterPickaxe⟩, []⟩)]⟩) ∧
    ∃ gold diamonds : Int, (gold = 1 ∨ gold = 2 ∨ gold = 3 ∨ gold = 4) ∧
      (mine "10.0.0.2" 7 false (Login "bob" "10.0.0.2" DB.empty)).1 =
        Outcome.mined gold diamonds :=
  ⟨by decide, by decide, by decide, by decide,
    (mine_gold_yield (Login "bob" "10.0.0.2" DB.empty) "10.0.0.2" 7 false (by decide)
      (by decide) (by decide) (by decide) (by decide)).2.2 (by decide) (by decide)
      (by decide)⟩

/-- C7 as stated fails outside the 64-bit range, each time with
`MinGold < MaxGold`.  (1) `alice` equips the pickaxe with range
-4000000000000000000 .. -3999999999999999999 and owns `gold_multiplier_3`: the
gold mined is 6446744073709551616, which is `d * 3` for no `d` of the range.
(2) She equips the pickaxe with range -5000000000000000000 ..
5000000000000000000: the width wraps to a negative `int` and `mine` panics in
`rand.Intn`.  (3) She equips the pickaxe with range 4000000000000000000 ..
4000000000000000001 and owns `gold_multiplier_3`: the gold mined is
-6446744073709551616, which is `d * 3` for no `d` of the range. -/
theorem mine_yield_wraps_counterexample :
    ((GetUserDataByIP "10.0.0.1" deepDB).Username = "alice" ∧
      (GetUserDataByIP "10.0.0.1" deepDB).Inventory.Pickaxe =
        ⟨"deep", "Deep Pickaxe", 0, -4000000000000000000, -3999999999999999999⟩ ∧
      (GetUserDataByIP "10.0.0.1" deepDB).GetGoldMultiplier = 3 ∧
      (mine "10.0.0.1" 0 false deepDB).1 = Outcome.mined 6446744073709551616 0 ∧
      ∀ d : Int, -4000000000000000000 ≤ d → d < -3999999999999999999 →
        d * 3 ≠ 6446744073709551616) ∧
    ((GetUserDataByIP "10.0.0.1" wideDB).Username = "alice" ∧
      (GetUserDataByIP "10.0.0.1" wideDB).Inventory.Pickaxe =
        ⟨"wide", "Wide Pickaxe", 0, -5000000000000000000, 5000000000000000000⟩ ∧
      mine "10.0.0.1" 0 false wideDB = (Outcome.panic, wideDB)) ∧
    ((GetUserDataByIP "10.0.0.1" steepDB).Username = "alice" ∧
      (GetUserDataByIP "10.0.0.1" steepDB).Inventory.Pickaxe =
        ⟨"steep", "Steep Pickaxe", 0, 4000000000000000000, 4000000000000000001⟩ ∧
      (GetUserDataByIP "10.0.0.1" steepDB).GetGoldMultiplier = 3 ∧
      (mine "10.0.0.1" 0 false steepDB).1 = Outcome.mined (-6446744073709551616) 0 ∧
      ∀ d : Int, 4000000000000000000 ≤ d → d < 4000000000000000001 →
        d * 3 ≠ -6446744073709551616) := by
  refine ⟨⟨by decide, by decide, by decide, by decide, ?_⟩, ⟨by decide, by decide, by decide⟩,
    ⟨by decide, by decide, by decide, by decide, ?_⟩⟩
  · intro d h1 h2
    omega
  · intro d h1 h2
    omega

/-- C8 fails on the code: for the record logged in at `ip`, an equipped
pickaxe with `MaxGold <= MinGold` (the difference being a 64-bit value) makes
`mine` call `rand.Intn` with a non-positive bound, which panics; nothing is
written. -/
theorem mine_degenerate_range_panics (db : DB) (ip : String) (seed : Nat) (foundDiamond : Bool)
    (hlog : (GetUserDataByIP ip db).Username ≠ "")
    (hdeg : (GetUserDataByIP ip db).Inventory.Pickaxe.MaxGold ≤
      (GetUserDataByIP ip db).Inventory.Pickaxe.MinGold)
    (hfit : -9223372036854775808 ≤ (GetUserDataByIP ip db).Inventory.Pickaxe.MaxGold -
      (GetUserDataByIP ip db).Inventory.Pickaxe.MinGold) :
    mine ip seed foundDiamond db = (Outcome.panic, db) := by
  have hn : wrapInt ((GetUserDataByIP ip db).Inventory.Pickaxe.MaxGold -
      (GetUserDataByIP ip db).Inventory.Pickaxe.MinGold) ≤ 0 := by
    rw [wrapInt_of_Fits ⟨hfit, by omega⟩]
    omega
  simp only [mine, hlog, if_false, randIntn_of_nonpos seed _ hn]

/-- The failing input of C8: `alice` logs in, buys the pickaxe with range
5..5 that the catalog offers for 0 gold, and mines. -/
theorem mine_degenerate_range_panics_witness :
    (GetUserDataByIP "10.0.0.1"
      (run (Init bluntItems) DB.empty
        [Request.login "alice" "10.0.0.1", Request.shopItem "10.0.0.1" 1])).Inventory.Pickaxe =
      ⟨"blunt", "Blunt Pickaxe", 0, 5, 5⟩ ∧
    mine "10.0.0.1" 0 false
      (run (Init bluntItems) DB.empty
        [Request.login "alice" "10.0.0.1", Request.shopItem "10.0.0.1" 1]) =
      (Outcome.panic,
        run (Init bluntItems) DB.empty
          [Request.login "alice" "10.0.0.1", Request.shopItem "10.0.0.1" 1]) :=
  ⟨by decide,
    mine_degenerate_range_panics
      (run (Init bluntItems) DB.empty
        [Request.login "alice" "10.0.0.1", Request.shopItem "10.0.0.1" 1])
      "10.0.0.1" 0 false (by decide) (by decide) (by decide)⟩

/-- C9 fails on the code: when the bucket exists and holds no record for the
non-blank name `u` (of at most `MaxKeySize` bytes), `LogOutUser(u)` stores the
zero-value record under the new key `u`, so the store is changed. -/
theorem LogOutUser_absent_adds_key (db : DB) (b : Bucket) (u : String)
    (hb : db.users = some b) (habs : Bucket.Get u b = none) (hu : u ≠ "")
    (hlen : u.utf8ByteSize ≤ MaxKeySize) :
    LogOutUser u db = ⟨some (Bucket.insert u User.zero b)⟩ ∧
    Bucket.Get u (LogOutUser u db).entries = some User.zero ∧
    LogOutUser u db ≠ db := by
  have hold : GetUserData u db = User.zero := by
    rw [GetUserData_eq]; simp [DB.entries, hb, habs]
  have hres : LogOutUser u db = ⟨some (Bucket.insert u User.zero b)⟩ := by
    simp only [LogOutUser, hb, hold, Put_ok _ _ hu hlen]
    rfl
  have hget : Bucket.Get u (LogOutUser u db).entries = some User.zero := by
    rw [hres]; simp [DB.entries, Get_insert_self]
  refine ⟨hres, hget, fun h => ?_⟩
  rw [h] at hget
  simp [DB.entries, hb, habs] at hget

/-- The failing input of C9: only `alice` is stored and `bob` is logged out. -/
theorem LogOutUser_absent_adds_key_witness :
    GetUserData "bob" (Login "alice" "10.0.0.1" DB.empty) = User.zero ∧
    LogOutUser "bob" (Login "alice" "10.0.0.1" DB.empty) =
      ⟨some [("alice", ⟨"alice", "10.0.0.1", 0, 0, 0, ⟨starterPickaxe⟩, []⟩),
             ("bob", User.zero)]⟩ ∧
    LogOutUser "bob" (Login "alice" "10.0.0.1" DB.empty) ≠ Login "alice" "10.0.0.1" DB.empty :=
  ⟨by decide, by decide,
    (LogOutUser_absent_adds_key (Login "alice" "10.0.0.1" DB.empty)
      [("alice", ⟨"alice", "10.0.0.1", 0, 0, 0, ⟨starterPickaxe⟩, []⟩)] "bob"
      (by decide) (by decide) (by decide) (by decide)).2.2⟩

/-- The part of C9 that holds: with no bucket `LogOutUser` changes nothing,
and for a stored record it only blanks the address, leaving its other fields
and every other account as they were. -/
theorem LogOutUser_present (db : DB) (u : String) :
    (db.users = none → LogOutUser u db = db) ∧
    (∀ r, Bucket.Get u db.entries = some r → u ≠ "" → u.utf8ByteSize ≤ MaxKeySize →
      GetUserData u (LogOutUser u db) = { r with IP := "" } ∧
      ∀ other, other ≠ u → GetUserData other (LogOutUser u db) = GetUserData other db) := by
  refine ⟨fun h => by simp [LogOutUser, h], fun r hr hu hlen => ?_⟩
  have hsome : ∃ b, db.users = some b := by
    cases hdb : db.users with
    | none => simp [DB.entries, hdb, Bucket.Get] at hr
    | some b => exact ⟨b, rfl⟩
  obtain ⟨b, hb⟩ := hsome
  have hent : db.entries = b := by simp [DB.entries, hb]
  have hold : GetUserData u db = r := by rw [GetUserData_eq, hr]; rfl
  have hres : LogOutUser u db = ⟨some (Bucket.insert u { r with IP := "" } b)⟩ := by
    simp only [LogOutUser, hb, hold, Put_ok _ _ hu hlen]
  refine ⟨?_, fun other hne => ?_⟩
  · rw [hres, GetUserData_eq]; simp [DB.entries, Get_insert_self]
  · rw [hres, GetUserData_eq, GetUserData_eq, hent]
    simp [DB.entries, Get_insert_of_ne _ _ hne]

/-! ## Non-negative balances in every reachable state -/

theorem Sound_zero : User.zero.Sound := by
  simp [User.Sound, User.zero, Pickaxe.zero]

theorem Sound_put (db : DB) (key : String) (value : User) (h : db.Sound) (hv : value.Sound) :
    DB.Sound (match Bucket.Put key value db.entries with
      | Except.error _ => db
      | Except.ok b => { users := some b }) := by
  unfold Bucket.Put
  split_ifs
  · exact h
  · exact h
  · intro kv hkv
    rcases mem_insert (show kv ∈ Bucket.insert key value db.entries from hkv) with hkv | hkv
    · rw [hkv]; exact hv
    · exact h kv hkv

theorem Sound_GetUserData (user : String) (db : DB) (h : db.Sound) :
    (GetUserData user db).Sound := by
  rw [GetUserData_eq]
  cases hg : Bucket.Get user db.entries with
  | none => exact Sound_zero
  | some r => exact h _ (mem_of_Get hg)

theorem Sound_GetUserDataByIP (ip : String) (db : DB) (h : db.Sound) :
    (GetUserDataByIP ip db).Sound := by
  rw [GetUserDataByIP_eq]
  rcases scan_spec ip db.entries User.zero with ⟨_, hres⟩ | ⟨l1, kv, l2, hb, _, _, hres⟩
  · rw [hres]; exact Sound_zero
  · rw [hres]; exact h kv (by rw [hb]; simp)

theorem Login_Sound (user ip : String) (db : DB) (h : db.Sound) : (Login user ip db).Sound := by
  have hold := Sound_GetUserData user db h
  unfold Login
  simp only
  split_ifs
  · exact Sound_put db user _ h ⟨hold.1, hold.2.1, by simp [starterPickaxe]⟩
  · exact Sound_put db user _ h hold

theorem LogOutUser_Sound (user : String) (db : DB) (h : db.Sound) :
    (LogOutUser user db).Sound := by
  have hold := Sound_GetUserData user db h
  cases hu : db.users with
  | none => simp only [LogOutUser, hu]; exact h
  | some b =>
    have hent : db.entries = b := by simp [DB.entries, hu]
    have := Sound_put db user { GetUserData user db with IP := "" } h hold
    rw [hent] at this
    simp only [LogOutUser, hu]
    exact this

theorem SaveUserData_Sound (userData : User) (db : DB) (h : db.Sound) (hr : userData.Sound) :
    (SaveUserData userData db).Sound := by
  cases hu : db.users with
  | none => simp only [SaveUserData, hu]; exact h
  | some b =>
    have hent : db.entries = b := by simp [DB.entries, hu]
    have := Sound_put db userData.Username userData h hr
    rw [hent] at this
    simp only [SaveUserData, hu]
    exact this

theorem Mine_eq_SaveUserData (userData : User) (gold diamond : Int) (db : DB) :
    Mine userData gold diamond db =
      SaveUserData { userData with
        Gold := wrapInt (userData.Gold + gold)
        Diamond := wrapInt (userData.Diamond + diamond) } db := rfl

theorem GetGoldMultiplier_pos (u : User) : 0 < u.GetGoldMultiplier := by
  unfold User.GetGoldMultiplier
  split_ifs <;> decide

theorem GetDiamondMultiplier_pos (u : User) : 0 < u.GetDiamondMultiplier := by
  unfold User.GetDiamondMultiplier
  split_ifs <;> decide

theorem mine_Sound (cat : Catalog) (ip : String) (seed : Nat) (foundDiamond : Bool) (db : DB)
    (h : db.Sound) (hex : (Request.mine ip seed foundDiamond).Exact cat db) :
    (mine ip seed foundDiamond db).2.Sound := by
  have hr := Sound_GetUserDataByIP ip db h
  by_cases hname : (GetUserDataByIP ip db).Username = ""
  · simp only [mine, hname, if_true]; exact h
  · have hdraw := hex hname
    by_cases hn : wrapInt ((GetUserDataByIP ip db).Inventory.Pickaxe.MaxGold -
        (GetUserDataByIP ip db).Inventory.Pickaxe.MinGold) ≤ 0
    · simp only [mine, hname, if_false, randIntn_of_nonpos seed _ hn]; exact h
    · have hpos : 0 < wrapInt ((GetUserDataByIP ip db).Inventory.Pickaxe.MaxGold -
          (GetUserDataByIP ip db).Inventory.Pickaxe.MinGold) := not_le.mp hn
      have hlo := Int.emod_nonneg (seed : Int) (ne_of_gt hpos)
      obtain ⟨hd, hprod, hgold, hdia⟩ := hdraw _ (randIntn_of_pos seed _ hpos)
      have hone : wrapInt (1 * (GetUserDataByIP ip db).GetDiamondMultiplier) =
          1 * (GetUserDataByIP ip db).GetDiamondMultiplier := by
        apply wrapInt_of_Fits
        unfold Fits
        rcases GetDiamondMultiplier_cases (GetUserDataByIP ip db) with hm | hm <;>
          rw [hm] <;> decide
      have hdia' : Fits ((GetUserDataByIP ip db).Diamond +
          (if foundDiamond = true then
            wrapInt (1 * (GetUserDataByIP ip db).GetDiamondMultiplier) else 0)) := by
        rw [hone]; exact hdia
      have hgold0 : 0 ≤ ((seed : Int) %
          wrapInt ((GetUserDataByIP ip db).Inventory.Pickaxe.MaxGold -
            (GetUserDataByIP ip db).Inventory.Pickaxe.MinGold) +
          (GetUserDataByIP ip db).Inventory.Pickaxe.MinGold) *
          (GetUserDataByIP ip db).GetGoldMultiplier :=
        Int.mul_nonneg (by have := hr.2.2; omega) (le_of_lt (GetGoldMultiplier_pos _))
      have hdia0 : 0 ≤ (if foundDiamond = true then
          wrapInt (1 * (GetUserDataByIP ip db).GetDiamondMultiplier) else 0 : Int) := by
        rw [hone]
        have := GetDiamondMultiplier_pos (GetUserDataByIP ip db)
        split_ifs <;> omega
      rw [mine_eq db ip seed foundDiamond hname hpos,
        wrapInt_of_Fits hd, wrapInt_of_Fits hprod, Mine_eq_SaveUserData]
      refine SaveUserData_Sound _ db h ⟨?_, ?_, hr.2.2⟩
      · show 0 ≤ wrapInt _
        rw [wrapInt_of_Fits hgold]
        exact Int.add_nonneg hr.1 hgold0
      · show 0 ≤ wrapInt _
        rw [wrapInt_of_Fits hdia']
        exact Int.add_nonneg hr.2.1 hdia0

theorem ShopItem_Sound (cat : Catalog) (hcat : cat.NonNegativeYield) (ip : String) (i : Int)
    (db : DB) (h : db.Sound) (hex : (Request.shopItem ip i).Exact cat db) :
    (ShopItem cat ip i db).2.Sound := by
  have hr := Sound_GetUserDataByIP ip db h
  by_cases hlog : (GetUserDataByIP ip db).Exists = true
  · obtain ⟨hexP, hexU⟩ := hex hlog
    by_cases h1 : i < 1 ∨
        (cat.cachedSortedPickaxes.length : Int) + cat.cachedSortedUpgrades.length < i
    · rw [ShopItem_invalid_eq cat db ip hlog i h1]; exact h
    · by_cases h2 : i ≤ (cat.cachedSortedPickaxes.length : Int)
      · obtain ⟨n, hn⟩ : ∃ n : Nat, i = (n : Int) + 1 := ⟨(i - 1).toNat, by omega⟩
        subst hn
        have hlt : n < cat.cachedSortedPickaxes.length := by omega
        have hidx : index? cat.cachedSortedPickaxes ((n : Int) + 1 - 1) =
            some cat.cachedSortedPickaxes[n] := by
          rw [show (n : Int) + 1 - 1 = (n : Int) by omega]
          exact index?_of_lt _ _ hlt
        rw [ShopItem_pickaxe_eq cat db ip hlog n hlt]
        split_ifs with hg
        · exact h
        · have hfit := hexP _ hidx (not_lt.mp hg)
          refine SaveUserData_Sound _ db h ⟨?_, hr.2.1, ?_⟩
          · show 0 ≤ wrapInt _
            rw [wrapInt_of_Fits hfit]
            omega
          · exact hcat _ (List.getElem_mem _)
      · obtain ⟨m, hm⟩ : ∃ m : Nat, i = (cat.cachedSortedPickaxes.length : Int) + m + 1 :=
          ⟨(i - 1 - cat.cachedSortedPickaxes.length).toNat, by omega⟩
        subst hm
        have hlt : m < cat.cachedSortedUpgrades.length := by omega
        have hidx : index? cat.cachedSortedUpgrades
            ((cat.cachedSortedPickaxes.length : Int) + m + 1 - 1 -
              cat.cachedSortedPickaxes.length) = some cat.cachedSortedUpgrades[m] := by
          rw [show (cat.cachedSortedPickaxes.length : Int) + m + 1 - 1 -
            cat.cachedSortedPickaxes.length = (m : Int) by omega]
          exact index?_of_lt _ _ hlt
        rw [ShopItem_upgrade_eq cat db ip hlog m hlt, handleUpgradePurchase_eq cat _ db m hlt]
        split_ifs with hg
        · exact h
        · have hfit := hexU _ hidx (not_lt.mp hg)
          refine SaveUserData_Sound _ db h ⟨hr.1, ?_, hr.2.2⟩
          show 0 ≤ wrapInt _
          rw [wrapInt_of_Fits hfit]
          omega
  · simp only [ShopItem, hlog, Bool.not_false, if_true]; exact h

theorem serve_Sound (cat : Catalog) (hcat : cat.NonNegativeYield) (db : DB) (req : Request)
    (h : db.Sound) (hex : req.Exact cat db) : (serve cat db req).2.Sound := by
  cases req with
  | login username ip =>
    simp only [serve, login]
    split_ifs
    · exact h
    · exact Login_Sound username ip db h
  | logout ip =>
    simp only [serve, logout]
    split_ifs
    · exact h
    · exact LogOutUser_Sound _ db h
  | mine ip seed foundDiamond => exact mine_Sound cat ip seed foundDiamond db h hex
  | shopItem ip itemIndex => exact ShopItem_Sound cat hcat ip itemIndex db h hex

theorem run_Sound (cat : Catalog) (hcat : cat.NonNegativeYield) (reqs : List Request) :
    ∀ db : DB, db.Sound → RunExact cat db reqs → (run cat db reqs).Sound := by
  induction reqs with
  | nil => intro db h _; exact h
  | cons req rest ih =>
    intro db h hex
    exact ih _ (serve_Sound cat hcat db req h hex.1) hex.2

/-- C10, amended: for every catalog none of whose pickaxes has a negative
`MinGold`, after every sequence of login, logout, mining and purchase requests
served from the empty store in which the integer results the handlers store
(the drawn yield, its product with the multiplier and the balance additions of
mining; the balance less the price of a purchase made) are exact, inside the
64-bit range, every stored record has `Gold >= 0` and `Diamond >= 0`. -/
theorem run_balances_nonnegative (cat : Catalog) (reqs : List Request)
    (hcat : cat.NonNegativeYield) (hex : RunExact cat DB.empty reqs) :
    (run cat DB.empty reqs).NonNegative := by
  have hsound : (run cat DB.empty reqs).Sound :=
    run_Sound cat hcat reqs DB.empty (by intro kv hkv; simp [DB.entries, DB.empty] at hkv) hex
  intro kv hkv
  exact ⟨(hsound kv hkv).1, (hsound kv hkv).2.1⟩

/-- Witness of C10: the example catalog and a session of `alice`. -/
theorem run_balances_nonnegative_witness :
    (Init exampleItems).NonNegativeYield ∧
    RunExact (Init exampleItems) DB.empty
      [Request.login "alice" "10.0.0.1", Request.mine "10.0.0.1" 7 true,
       Request.shopItem "10.0.0.1" 1, Request.logout "10.0.0.1"] ∧
    (run (Init exampleItems) DB.empty
      [Request.login "alice" "10.0.0.1", Request.mine "10.0.0.1" 7 true,
       Request.shopItem "10.0.0.1" 1, Request.logout "10.0.0.1"]).NonNegative :=
  ⟨by decide, by decide,
    run_balances_nonnegative (Init exampleItems)
      [Request.login "alice" "10.0.0.1", Request.mine "10.0.0.1" 7 true,
       Request.shopItem "10.0.0.1" 1, Request.logout "10.0.0.1"] (by decide) (by decide)⟩

/-- C10 as stated fails (1) for a catalog with a pickaxe of negative yield:
`alice` logs in, buys the pickaxe with range -3..-1 for 0 gold and mines; her
stored gold is then -3; and, with no `MinGold` negative, when a result leaves
the 64-bit range: (2) the balance addition, two mines of yield `2^63 - 2`
store the gold -4; (3) the price subtraction, with `2^63 - 2` gold the
purchase at price -2 stores the gold `-2^63`; (4) the product, the yield
4000000000000000000 tripled stores the gold -6446744073709551616; (5) the
drawn yield, the draw 1 added to `MinGold = 2^63 - 1` stores the gold `-2^63`. -/
theorem run_negative_gold_counterexample :
    (GetUserData "alice"
        (run (Init cursedItems) DB.empty
          [Request.login "alice" "10.0.0.1", Request.shopItem "10.0.0.1" 1,
           Request.mine "10.0.0.1" 0 false]) =
        ⟨"alice", "10.0.0.1", -3, 0, 0, ⟨⟨"cursed", "Cursed Pickaxe", 0, -3, -1⟩⟩, []⟩ ∧
      ¬ (run (Init cursedItems) DB.empty
          [Request.login "alice" "10.0.0.1", Request.shopItem "10.0.0.1" 1,
           Request.mine "10.0.0.1" 0 false]).NonNegative) ∧
    ((Init richItems).NonNegativeYield ∧
      (GetUserData "alice"
        (run (Init richItems) DB.empty
          [Request.login "alice" "10.0.0.1", Request.shopItem "10.0.0.1" 2,
           Request.mine "10.0.0.1" 0 false, Request.mine "10.0.0.1" 0 false])).Gold = -4 ∧
      ¬ (run (Init richItems) DB.empty
          [Request.login "alice" "10.0.0.1", Request.shopItem "10.0.0.1" 2,
           Request.mine "10.0.0.1" 0 false, Request.mine "10.0.0.1" 0 false]).NonNegative) ∧
    ((GetUserData "alice"
        (run (Init richItems) DB.empty
          [Request.login "alice" "10.0.0.1", Request.shopItem "10.0.0.1" 2,
           Request.mine "10.0.0.1" 0 false, Request.shopItem "10.0.0.1" 1])).Gold =
        -9223372036854775808 ∧
      ¬ (run (Init richItems) DB.empty
          [Request.login "alice" "10.0.0.1", Request.shopItem "10.0.0.1" 2,
           Request.mine "10.0.0.1" 0 false, Request.shopItem "10.0.0.1" 1]).NonNegative) ∧
    ((Init steepItems).NonNegativeYield ∧
      (GetUserData "alice"
        (run (Init steepItems) DB.empty
          [Request.login "alice" "10.0.0.1", Request.shopItem "10.0.0.1" 1,
           Request.shopItem "10.0.0.1" 2, Request.mine "10.0.0.1" 0 false])).Gold =
        -6446744073709551616 ∧
      ¬ (run (Init steepItems) DB.empty
          [Request.login "alice" "10.0.0.1", Request.shopItem "10.0.0.1" 1,
           Request.shopItem "10.0.0.1" 2, Request.mine "10.0.0.1" 0 false]).NonNegative) ∧
    ((Init oddItems).NonNegativeYield ∧
      (GetUserData "alice"
        (run (Init oddItems) DB.empty
          [Request.login "alice" "10.0.0.1", Request.shopItem "10.0.0.1" 1,
           Request.mine "10.0.0.1" 1 false])).Gold = -9223372036854775808 ∧
      ¬ (run (Init oddItems) DB.empty
          [Request.login "alice" "10.0.0.1", Request.shopItem "10.0.0.1" 1,
           Request.mine "10.0.0.1" 1 false]).NonNegative) := by
  refine ⟨⟨by decide, by decide⟩, ⟨by decide, by decide, by decide⟩, ⟨by decide, by decide⟩,
    ⟨by decide, by decide, by decide⟩, ⟨by decide, by decide, by decide⟩⟩

/-! ## Reachable stores are ordered and keyed by name -/

theorem WF_put (db : DB) (key : String) (value : User) (ho : db.Ordered) (hk : db.Keyed)
    (hv : value.Username = key) :
    DB.Ordered (match Bucket.Put key value db.entries with
      | Except.error _ => db
      | Except.ok b => { users := some b }) ∧
    DB.Keyed (match Bucket.Put key value db.entries with
      | Except.error _ => db
      | Except.ok b => { users := some b }) := by
  unfold Bucket.Put
  split_ifs with h1 h2
  · exact ⟨ho, hk⟩
  · exact ⟨ho, hk⟩
  · refine ⟨insert_pairwise ho, ?_⟩
    intro kv hkv
    rcases mem_insert (show kv ∈ Bucket.insert key value db.entries from hkv) with hkv | hkv
    · rw [hkv]; exact ⟨hv, h1, Nat.not_lt.mp h2⟩
    · exact hk kv hkv

theorem Get_of_mem {key : String} {value : User} {b : Bucket} (h : (key, value) ∈ b) :
    ∃ v, Bucket.Get key b = some v := by
  induction b with
  | nil => simp at h
  | cons x rest ih =>
    obtain ⟨k, v⟩ := x
    by_cases h1 : key = k
    · exact ⟨v, by simp [Bucket.Get, h1]⟩
    · rcases List.mem_cons.mp h with h | h
      · exact absurd (congrArg Prod.fst h) h1
      · obtain ⟨v', hv'⟩ := ih h
        exact ⟨v', by simp [Bucket.Get, h1, hv']⟩

theorem Login_WF (user ip : String) (db : DB) (ho : db.Ordered) (hk : db.Keyed) :
    (Login user ip db).Ordered ∧ (Login user ip db).Keyed := by
  unfold Login
  simp only
  split_ifs with hname
  · exact WF_put db user _ ho hk rfl
  · refine WF_put db user _ ho hk ?_
    rw [GetUserData_eq] at hname ⊢
    cases hg : Bucket.Get user db.entries with
    | none => rw [hg] at hname; exact absurd rfl hname
    | some r => exact (hk _ (mem_of_Get hg)).1

theorem SaveUserData_WF (userData : User) (db : DB) (ho : db.Ordered) (hk : db.Keyed) :
    (SaveUserData userData db).Ordered ∧ (SaveUserData userData db).Keyed := by
  cases hu : db.users with
  | none => simp only [SaveUserData, hu]; exact ⟨ho, hk⟩
  | some b =>
    have hent : db.entries = b := by simp [DB.entries, hu]
    have := WF_put db userData.Username userData ho hk rfl
    rw [hent] at this
    simp only [SaveUserData, hu]
    exact this

theorem logout_WF (ip : String) (db : DB) (ho : db.Ordered) (hk : db.Keyed) :
    (logout ip db).2.Ordered ∧ (logout ip db).2.Keyed := by
  by_cases hname : (GetUserDataByIP ip db).Username = ""
  · simp only [logout, hname, if_true]; exact ⟨ho, hk⟩
  · have hlog : (GetUserDataByIP ip db).Exists = true := by simpa [User.Exists] using hname
    obtain ⟨k, hmem⟩ := GetUserDataByIP_mem ip db hlog
    have hkey : (GetUserDataByIP ip db).Username = k := (hk _ hmem).1
    obtain ⟨v, hv⟩ := Get_of_mem hmem
    have hvname : v.Username = k := (hk _ (mem_of_Get hv)).1
    have hold : GetUserData k db = v := by rw [GetUserData_eq, hv]; rfl
    simp only [logout, hname, if_false]
    rw [hkey]
    cases hu : db.users with
    | none => simp only [LogOutUser, hu]; exact ⟨ho, hk⟩
    | some b =>
      have hent : db.entries = b := by simp [DB.entries, hu]
      have := WF_put db k { v with IP := "" } ho hk hvname
      rw [hent] at this
      simp only [LogOutUser, hu, hold]
      exact this

theorem serve_WF (cat : Catalog) (db : DB) (req : Request) (ho : db.Ordered) (hk : db.Keyed) :
    (serve cat db req).2.Ordered ∧ (serve cat db req).2.Keyed := by
  cases req with
  | login username ip =>
    simp only [serve, login]
    split_ifs
    · exact ⟨ho, hk⟩
    · exact Login_WF username ip db ho hk
  | logout ip => exact logout_WF ip db ho hk
  | mine ip seed foundDiamond =>
    simp only [serve, mine, Mine_eq_SaveUserData]
    by_cases hname : (GetUserDataByIP ip db).Username = ""
    · simp only [hname, if_true]; exact ⟨ho, hk⟩
    · simp only [hname, if_false]
      cases randIntn seed (wrapInt ((GetUserDataByIP ip db).Inventory.Pickaxe.MaxGold -
          (GetUserDataByIP ip db).Inventory.Pickaxe.MinGold)) with
      | none => exact ⟨ho, hk⟩
      | some draw => exact SaveUserData_WF _ db ho hk
  | shopItem ip itemIndex =>
    simp only [serve, ShopItem, handleUpgradePurchase]
    split_ifs
    · exact ⟨ho, hk⟩
    · exact ⟨ho, hk⟩
    · cases index? cat.cachedSortedUpgrades
          (itemIndex - 1 - cat.cachedSortedPickaxes.length) with
      | none => exact ⟨ho, hk⟩
      | some upgrade =>
        simp only
        split_ifs
        · exact ⟨ho, hk⟩
        · exact SaveUserData_WF _ db ho hk
    · cases index? cat.cachedSortedPickaxes (itemIndex - 1) with
      | none => exact ⟨ho, hk⟩
      | some pickaxe =>
        simp only
        split_ifs
        · exact ⟨ho, hk⟩
        · exact SaveUserData_WF _ db ho hk

/-- Every store the handlers reach from the empty file has its keys in
ascending order and every record under its own name. -/
theorem run_WF (cat : Catalog) (reqs : List Request) :
    (run cat DB.empty reqs).Ordered ∧ (run cat DB.empty reqs).Keyed := by
  have hgen : ∀ (rs : List Request) (db : DB), db.Ordered → db.Keyed →
      (run cat db rs).Ordered ∧ (run cat db rs).Keyed := by
    intro rs
    induction rs with
    | nil => intro db ho hk; exact ⟨ho, hk⟩
    | cons req rest ih =>
      intro db ho hk
      exact ih _ (serve_WF cat db req ho hk).1 (serve_WF cat db req ho hk).2
  exact hgen reqs DB.empty (by simp [DB.Ordered, DB.entries, DB.empty])
    (by intro kv hkv; simp [DB.entries, DB.empty] at hkv)

end MiningGame
